import Mathlib

/-! Procedural meshes of `src/polygonal/polygonal.cpp`.

A shallow embedding of the three mesh builders of the renderer
(`renderWall`, `renderSphere`, `renderTorus`), of the lazily-built handles
that guard them, and of the shadow toggle and height-scale branches of
`processInput`, together with theorems about the buffers and states they
produce.

Conventions of the embedding.

* The `float`/`double` arithmetic of the mesh builders is read over an
  arbitrary field `α`; the library functions `std::cos`, `std::sin` and the
  square root used by `glm::normalize` are the fields of a `Math α` record,
  and the constants `PI`, `TAU` are parameters.  Theorems that need real
  arithmetic instantiate `α := ℝ`.
* The `float` global `heightScale` is held in binary32: sums and differences
  are rounded to 24 significant bits, to nearest with ties to even.
* `std::vector::push_back` / `emplace_back` is `l ++ [v]`.
* The segment counts are C `int`s that the claims take non-negative; they
  are naturals here.  Loop counters and index values are computed without
  wrap-around, which is what the source computes whenever the vertex count
  fits an `int` (see `sphereIndices_fit_int`).
-/

namespace Polygonal

/-! ## Vectors -/

/-- The type `glm::vec2`. -/
structure Vec2 (α : Type) where
  x : α
  y : α
deriving DecidableEq, Repr

/-- The type `glm::vec3`. -/
structure Vec3 (α : Type) where
  x : α
  y : α
  z : α
deriving DecidableEq, Repr

/-- The library functions the builders call: `std::cos`, `std::sin`, and the
square root behind `glm::normalize`. -/
structure Math (α : Type) where
  cos : α → α
  sin : α → α
  sqrt : α → α

/-! ## Counting loops -/

/-- The loop `for (x = 0; x <= n; ++x) s = body(x, s);`. -/
def forUpTo {σ : Type} (n : Nat) (body : Nat → σ → σ) (s : σ) : σ :=
  (List.range (n + 1)).foldl (fun acc x => body x acc) s

/-- The loop `for (y = 0; y < n; ++y) s = body(y, s);`. -/
def forBelow {σ : Type} (n : Nat) (body : Nat → σ → σ) (s : σ) : σ :=
  (List.range n).foldl (fun acc y => body y acc) s

/-- The loop `for (x = n; x >= 0; --x) s = body(x, s);`. -/
def forDownFrom {σ : Type} (n : Nat) (body : Nat → σ → σ) (s : σ) : σ :=
  (List.range (n + 1)).reverse.foldl (fun acc x => body x acc) s

/-! ## The vertex vectors shared by the sphere and the torus -/

/-- The three vectors `positions`, `uv`, `normals` a builder fills. -/
structure Attribs (α : Type) where
  positions : List (Vec3 α)
  uv : List (Vec2 α)
  normals : List (Vec3 α)
deriving DecidableEq, Repr

/-- The three vectors as declared, before any `emplace_back`. -/
def Attribs.empty {α : Type} : Attribs α := ⟨[], [], []⟩

/-- One round of `positions.emplace_back(p); normals.emplace_back(n);
uv.emplace_back(t);`. -/
def Attribs.emplace {α : Type} (a : Attribs α) (p n : Vec3 α) (t : Vec2 α) : Attribs α :=
  { positions := a.positions ++ [p], uv := a.uv ++ [t], normals := a.normals ++ [n] }

/-- The running state of an index loop: the vector `indices` and the flag
`oddRow`. -/
structure Strip where
  indices : List Nat
  oddRow : Bool
deriving DecidableEq, Repr

/-- The interleaving loop that fills `data`: for every `i` the position, then
the normal when `normals` is not empty, then the texture coordinate when `uv`
is not empty.  Reading `normals[i]` or `uv[i]` past the end is not modelled
(the builders fill the three vectors together), such an entry contributes
nothing. -/
def interleave {α : Type} (a : Attribs α) : List α :=
  forBelow a.positions.length (fun i data =>
    let data := match a.positions.get? i with
      | some p => data ++ [p.x] ++ [p.y] ++ [p.z]
      | none => data
    let data := if !a.normals.isEmpty then
        match a.normals.get? i with
        | some n => data ++ [n.x] ++ [n.y] ++ [n.z]
        | none => data
      else data
    if !a.uv.isEmpty then
      match a.uv.get? i with
      | some t => data ++ [t.x] ++ [t.y]
      | none => data
    else data) []

/-! ## `renderSphere`: the build branch -/

section Sphere

variable {α : Type} [Field α]

/-- The body of the inner vertex loop of `renderSphere` (lines 644-652). -/
def sphereEmplace (M : Math α) (PI TAU : α) (xSeg ySeg : Nat) (y x : Nat)
    (a : Attribs α) : Attribs α :=
  let xSegment : α := (x : α) / (xSeg : α)
  let ySegment : α := (y : α) / (ySeg : α)
  let xPos := M.cos (xSegment * TAU) * M.sin (ySegment * PI)
  let yPos := M.cos (ySegment * PI)
  let zPos := M.sin (xSegment * TAU) * M.sin (ySegment * PI)
  a.emplace ⟨xPos, yPos, zPos⟩ ⟨xPos, yPos, zPos⟩ ⟨xSegment, ySegment⟩

/-- The vertex loops of `renderSphere` (lines 640-654). -/
def sphereAttribs (M : Math α) (PI TAU : α) (xSeg ySeg : Nat) : Attribs α :=
  forUpTo ySeg (fun y a =>
    forUpTo xSeg (fun x a => sphereEmplace M PI TAU xSeg ySeg y x a) a) Attribs.empty

/-- One iteration of the row loop of `renderSphere` (lines 659-675). -/
def sphereRow (xSeg : Nat) (y : Nat) (st : Strip) : Strip :=
  let indices :=
    if !st.oddRow then
      forUpTo xSeg (fun x ind =>
        (ind ++ [y * (xSeg + 1) + x]) ++ [(y + 1) * (xSeg + 1) + x]) st.indices
    else
      forDownFrom xSeg (fun x ind =>
        (ind ++ [(y + 1) * (xSeg + 1) + x]) ++ [y * (xSeg + 1) + x]) st.indices
  { indices := indices, oddRow := !st.oddRow }

/-- The index loops of `renderSphere` (lines 656-676). -/
def sphereIndices (xSeg ySeg : Nat) : List Nat :=
  (forBelow ySeg (sphereRow xSeg) { indices := [], oddRow := false }).indices

end Sphere

/-! ## `renderTorus`: the build branch -/

section Torus

variable {α : Type} [Field α]

/-- The body of the innermost vertex loop of `renderTorus` (lines 738-750).
The remainder `(i + k) % rSeg` is the C++ one only for `rSeg ≠ 0`; the build
as a whole (`torusBuild`) does not reach this body's result when `rSeg = 0`. -/
def torusEmplace (M : Math α) (TAU : α) (r c : α) (rSeg cSeg : Nat) (i j k : Nat)
    (a : Attribs α) : Attribs α :=
  let s : α := (((i + k) % rSeg : Nat) : α) + 1 / 2
  let t : α := ((j % (cSeg + 1) : Nat) : α)
  let xPos := (c + r * M.cos (s * TAU / (rSeg : α))) * M.cos (t * TAU / (cSeg : α))
  let yPos := (c + r * M.cos (s * TAU / (rSeg : α))) * M.sin (t * TAU / (cSeg : α))
  let zPos := r * M.sin (s * TAU / (rSeg : α))
  let u : α := ((i + k : Nat) : α) / (rSeg : α)
  let v : α := t / (cSeg : α)
  a.emplace ⟨2 * xPos, 2 * yPos, 2 * zPos⟩ ⟨2 * xPos, 2 * yPos, 2 * zPos⟩ ⟨u, v⟩

/-- The vertex loops of `renderTorus` (lines 733-753). -/
def torusAttribs (M : Math α) (TAU : α) (r c : α) (rSeg cSeg : Nat) : Attribs α :=
  forUpTo rSeg (fun i a =>
    forUpTo cSeg (fun j a =>
      forBelow 2 (fun k a => torusEmplace M TAU r c rSeg cSeg i j k a) a) a) Attribs.empty

/-- One iteration of the row loop of `renderTorus` (lines 758-775). -/
def torusRow (rSeg : Nat) (j : Nat) (st : Strip) : Strip :=
  let indices :=
    if !st.oddRow then
      forUpTo rSeg (fun i ind =>
        (ind ++ [j * (rSeg + 1) + i]) ++ [(j + 1) * (rSeg + 1) + i]) st.indices
    else
      forDownFrom rSeg (fun i ind =>
        (ind ++ [(j + 1) * (rSeg + 1) + i]) ++ [j * (rSeg + 1) + i]) st.indices
  { indices := indices, oddRow := !st.oddRow }

/-- The index loops of `renderTorus` (lines 755-776). -/
def torusIndices (rSeg cSeg : Nat) : List Nat :=
  (forBelow cSeg (torusRow rSeg) { indices := [], oddRow := false }).indices

/-- What the build branch of `renderTorus` leaves behind: the vertex vectors
and the index vector. -/
structure TorusMesh (α : Type) where
  attribs : Attribs α
  indices : List Nat

/-- The build branch of `renderTorus` (lines 733-777).  The source checks none
of its arguments.  The only way the branch ends without a mesh is the integer
remainder `(i + k) % rSeg` with `rSeg = 0`, executed for the very first vertex
(`i = j = k = 0`): that is `none`. -/
def torusBuild (M : Math α) (TAU : α) (r c : α) (rSeg cSeg : Nat) : Option (TorusMesh α) :=
  if rSeg = 0 then none
  else some { attribs := torusAttribs M TAU r c rSeg cSeg, indices := torusIndices rSeg cSeg }

end Torus

/-! ## `renderWall`: the build branch -/

section Wall

variable {α : Type} [Field α]

/-- The operator `glm::vec3 - glm::vec3`. -/
def Vec3.sub (a b : Vec3 α) : Vec3 α := ⟨a.x - b.x, a.y - b.y, a.z - b.z⟩

/-- The operator `glm::vec2 - glm::vec2`. -/
def Vec2.sub (a b : Vec2 α) : Vec2 α := ⟨a.x - b.x, a.y - b.y⟩

/-- The function `glm::dot` on `vec3`. -/
def dot (a b : Vec3 α) : α := a.x * b.x + a.y * b.y + a.z * b.z

/-- The function `glm::cross`. -/
def cross (a b : Vec3 α) : Vec3 α :=
  ⟨a.y * b.z - b.y * a.z, a.z * b.x - b.z * a.x, a.x * b.y - b.x * a.y⟩

/-- The function `glm::length`: `sqrt(dot(v, v))`. -/
def length (M : Math α) (v : Vec3 α) : α := M.sqrt (dot v v)

/-- The function `glm::normalize`: `v * inversesqrt(dot(v, v))`, where
`inversesqrt(d)` is `1 / sqrt(d)`. -/
def normalize (M : Math α) (v : Vec3 α) : Vec3 α :=
  let inv : α := 1 / M.sqrt (dot v v)
  ⟨v.x * inv, v.y * inv, v.z * inv⟩

/-- The corner positions, texture coordinates and normal a wall is built from. -/
structure Quad (α : Type) where
  pos1 : Vec3 α
  pos2 : Vec3 α
  pos3 : Vec3 α
  pos4 : Vec3 α
  uv1 : Vec2 α
  uv2 : Vec2 α
  uv3 : Vec2 α
  uv4 : Vec2 α
  nm : Vec3 α

/-- The values `renderWall` hard-codes (lines 515-525). -/
def wallQuad : Quad α :=
  { pos1 := ⟨-1, 1, 0⟩, pos2 := ⟨-1, -1, 0⟩, pos3 := ⟨1, -1, 0⟩, pos4 := ⟨1, 1, 0⟩
    uv1 := ⟨0, 1⟩, uv2 := ⟨0, 0⟩, uv3 := ⟨1, 0⟩, uv4 := ⟨1, 1⟩
    nm := ⟨0, 0, 1⟩ }

/-- The denominator of `f` (lines 536 and 554). -/
def uvDet (deltaUV1 deltaUV2 : Vec2 α) : α :=
  deltaUV1.x * deltaUV2.y - deltaUV2.x * deltaUV1.y

/-- The tangent of one triangle (lines 536-541, again 554-559). -/
def tangentOf (M : Math α) (edge1 edge2 : Vec3 α) (deltaUV1 deltaUV2 : Vec2 α) : Vec3 α :=
  let f : α := 1 / (deltaUV1.x * deltaUV2.y - deltaUV2.x * deltaUV1.y)
  normalize M
    ⟨f * (deltaUV2.y * edge1.x - deltaUV1.y * edge2.x),
     f * (deltaUV2.y * edge1.y - deltaUV1.y * edge2.y),
     f * (deltaUV2.y * edge1.z - deltaUV1.y * edge2.z)⟩

/-- The bitangent of one triangle (lines 536, 543-546, again 554, 562-565). -/
def bitangentOf (M : Math α) (edge1 edge2 : Vec3 α) (deltaUV1 deltaUV2 : Vec2 α) : Vec3 α :=
  let f : α := 1 / (deltaUV1.x * deltaUV2.y - deltaUV2.x * deltaUV1.y)
  normalize M
    ⟨f * (-deltaUV2.x * edge1.x + deltaUV1.x * edge2.x),
     f * (-deltaUV2.x * edge1.y + deltaUV1.x * edge2.y),
     f * (-deltaUV2.x * edge1.z + deltaUV1.x * edge2.z)⟩

/-- The four vectors computed at lines 527-565. -/
structure Tangents (α : Type) where
  tangent1 : Vec3 α
  bitangent1 : Vec3 α
  tangent2 : Vec3 α
  bitangent2 : Vec3 α

/-- The tangent and bitangent computation of `renderWall` (lines 527-565),
as a function of the values it starts from.  No branch of it inspects the
denominator of `f`. -/
def wallTangents (M : Math α) (q : Quad α) : Tangents α :=
  -- triangle 1
  let edge1 := q.pos2.sub q.pos1
  let edge2 := q.pos3.sub q.pos1
  let deltaUV1 := q.uv2.sub q.uv1
  let deltaUV2 := q.uv3.sub q.uv1
  let tangent1 := tangentOf M edge1 edge2 deltaUV1 deltaUV2
  let bitangent1 := bitangentOf M edge1 edge2 deltaUV1 deltaUV2
  -- triangle 2
  let edge1 := q.pos3.sub q.pos1
  let edge2 := q.pos4.sub q.pos1
  let deltaUV1 := q.uv3.sub q.uv1
  let deltaUV2 := q.uv4.sub q.uv1
  let tangent2 := tangentOf M edge1 edge2 deltaUV1 deltaUV2
  let bitangent2 := bitangentOf M edge1 edge2 deltaUV1 deltaUV2
  { tangent1 := tangent1, bitangent1 := bitangent1,
    tangent2 := tangent2, bitangent2 := bitangent2 }

/-- One row of the array `wallVertices`: 14 floats. -/
def wallRow (p nm : Vec3 α) (uv : Vec2 α) (t b : Vec3 α) : List α :=
  [p.x, p.y, p.z, nm.x, nm.y, nm.z, uv.x, uv.y, t.x, t.y, t.z, b.x, b.y, b.z]

/-- The array `wallVertices` (lines 568-577). -/
def wallVertices (M : Math α) (q : Quad α) : List α :=
  let tb := wallTangents M q
  wallRow q.pos1 q.nm q.uv1 tb.tangent1 tb.bitangent1 ++
  wallRow q.pos2 q.nm q.uv2 tb.tangent1 tb.bitangent1 ++
  wallRow q.pos3 q.nm q.uv3 tb.tangent1 tb.bitangent1 ++
  wallRow q.pos1 q.nm q.uv1 tb.tangent2 tb.bitangent2 ++
  wallRow q.pos3 q.nm q.uv3 tb.tangent2 tb.bitangent2 ++
  wallRow q.pos4 q.nm q.uv4 tb.tangent2 tb.bitangent2

/-- The build branch of `renderWall` as a function of the values it starts
from.  It has a single exit, the upload of `wallVertices`: with a zero
denominator the `float` division `1.0f / 0` yields an infinity and execution
goes on, so the result is always `some`. -/
def wallBuild (M : Math α) (q : Quad α) : Option (List α) :=
  some (wallVertices M q)

/-- Length one and at right angle to `n`, measured with the functions of `M`. -/
def UnitOrthogonal (M : Math α) (v n : Vec3 α) : Prop :=
  length M v = 1 ∧ dot v n = 0

/-- The wall of `renderWall` with the normal `(1, 0, 0)`, which lies in the
plane of the wall. -/
def inPlaneNormalQuad : Quad α :=
  { (wallQuad : Quad α) with nm := ⟨1, 0, 0⟩ }

/-- The texture coordinates and normal of `renderWall` on four corners that
all sit at the origin. -/
def collapsedQuad : Quad α :=
  { (wallQuad : Quad α) with
    pos1 := ⟨0, 0, 0⟩, pos2 := ⟨0, 0, 0⟩, pos3 := ⟨0, 0, 0⟩, pos4 := ⟨0, 0, 0⟩ }

/-- The corners and normal of `renderWall` with four identical texture
coordinates. -/
def flatUVQuad : Quad α :=
  { (wallQuad : Quad α) with
    uv1 := ⟨0, 0⟩, uv2 := ⟨0, 0⟩, uv3 := ⟨0, 0⟩, uv4 := ⟨0, 0⟩ }

end Wall

/-! ## The lazily built handles -/

section Handles

variable {α : Type} [Field α]

/-- The globals `sphereVAO` and `sphereIndexCount`, with the contents of the
two buffers that the build branch uploads for that vertex array. -/
structure SphereState (α : Type) where
  sphereVAO : Nat
  sphereIndexCount : Nat
  arrayBuffer : List α
  elementBuffer : List Nat

/-- The globals as initialised at lines 624-625; nothing is uploaded yet. -/
def SphereState.initial : SphereState α :=
  { sphereVAO := 0, sphereIndexCount := 0, arrayBuffer := [], elementBuffer := [] }

/-- The call `glDrawElements(GL_TRIANGLE_STRIP, count, GL_UNSIGNED_INT,
nullptr)` together with the buffers of the bound vertex array. -/
structure DrawElements (α : Type) where
  count : Nat
  arrayBuffer : List α
  elementBuffer : List Nat

/-- The function `renderSphere(xSeg, ySeg)` (lines 626-712) as a step on the
globals.  `vao` is the name `glGenVertexArrays` writes to `sphereVAO` when the
build branch runs. -/
def renderSphere (M : Math α) (PI TAU : α) (vao : Nat) (xSeg ySeg : Nat)
    (st : SphereState α) : SphereState α × DrawElements α :=
  let st :=
    if st.sphereVAO = 0 then
      let attribs := sphereAttribs M PI TAU xSeg ySeg
      let indices := sphereIndices xSeg ySeg
      { sphereVAO := vao, sphereIndexCount := indices.length,
        arrayBuffer := interleave attribs, elementBuffer := indices }
    else st
  (st, { count := st.sphereIndexCount, arrayBuffer := st.arrayBuffer,
         elementBuffer := st.elementBuffer })

/-- The globals `torusVAO` and `torusIndexCount`, with the contents of the
two buffers that the build branch uploads for that vertex array. -/
structure TorusState (α : Type) where
  torusVAO : Nat
  torusIndexCount : Nat
  arrayBuffer : List α
  elementBuffer : List Nat

/-- The globals as initialised at lines 715-716; nothing is uploaded yet. -/
def TorusState.initial : TorusState α :=
  { torusVAO := 0, torusIndexCount := 0, arrayBuffer := [], elementBuffer := [] }

/-- The call `glDrawArrays(GL_TRIANGLE_STRIP, first, count)` together with the
array buffer of the bound vertex array. -/
structure DrawArrays (α : Type) where
  first : Nat
  count : Nat
  arrayBuffer : List α

/-- The function `renderTorus(r, c, rSeg, cSeg)` (lines 717-812) as a step on
the globals.  `vao` is the name `glGenVertexArrays` writes to `torusVAO` when
the build branch runs; the result is `none` when the build branch does not
complete (`torusBuild`). -/
def renderTorus (M : Math α) (TAU : α) (vao : Nat) (r c : α) (rSeg cSeg : Nat)
    (st : TorusState α) : Option (TorusState α × DrawArrays α) :=
  if st.torusVAO = 0 then
    match torusBuild M TAU r c rSeg cSeg with
    | none => none
    | some mesh =>
      let st : TorusState α :=
        { torusVAO := vao, torusIndexCount := mesh.indices.length,
          arrayBuffer := interleave mesh.attribs, elementBuffer := mesh.indices }
      some (st, { first := 0, count := st.torusIndexCount, arrayBuffer := st.arrayBuffer })
  else
    some (st, { first := 0, count := st.torusIndexCount, arrayBuffer := st.arrayBuffer })

end Handles

/-! ## Properties of the vertex vectors -/

/-- The normals repeat the positions and every position has squared length 1. -/
def OnUnitSphere (a : Attribs ℝ) : Prop :=
  a.normals = a.positions ∧ ∀ p ∈ a.positions, dot p p = 1

/-- The three vectors have one entry per vertex. -/
def Aligned {α : Type} (a : Attribs α) : Prop :=
  a.normals.length = a.positions.length ∧ a.uv.length = a.positions.length

/-! ## The strip described row by row -/

/-- The indices of row `y` of a strip over a grid of `n + 1` columns: on an
even row the pairs `(y*(n+1)+x, (y+1)*(n+1)+x)` for `x = 0, ..., n`; on an odd
row the pairs `((y+1)*(n+1)+x, y*(n+1)+x)`, lower row first, for
`x = n, ..., 0`. -/
def stripRow (n y : Nat) : List Nat :=
  if y % 2 = 0 then
    (List.range (n + 1)).flatMap (fun x => [y * (n + 1) + x, (y + 1) * (n + 1) + x])
  else
    (List.range (n + 1)).reverse.flatMap (fun x => [(y + 1) * (n + 1) + x, y * (n + 1) + x])

/-- The rows `0, ..., m - 1` of a strip, one after the other. -/
def stripIndices (n m : Nat) : List Nat :=
  (List.range m).flatMap (stripRow n)

/-- The sphere's index sequence in the words of the specification: with
`stride = X + 1`, the rows `y = 0, ..., Y - 1` one after the other, an even row
being the pairs `(y*stride+x, (y+1)*stride+x)` for `x = 0, ..., X` and an odd
row the same pairs, in the same first/second order, for `x = X, ..., 0`. -/
def specSphereIndices (X Y : Nat) : List Nat :=
  (List.range Y).flatMap (fun y =>
    if y % 2 = 0 then
      (List.range (X + 1)).flatMap (fun x => [y * (X + 1) + x, (y + 1) * (X + 1) + x])
    else
      (List.range (X + 1)).reverse.flatMap (fun x => [y * (X + 1) + x, (y + 1) * (X + 1) + x]))

/-- The value at place `k` of row `y` of a strip over `n + 1` columns: places
`2x` and `2x + 1` hold the pair of column `x` on an even row and the pair of
column `n - x` on an odd row. -/
def stripRowAt (n y k : Nat) : Nat :=
  if y % 2 = 0 then
    if k % 2 = 0 then y * (n + 1) + k / 2 else (y + 1) * (n + 1) + k / 2
  else
    if k % 2 = 0 then (y + 1) * (n + 1) + (n - k / 2) else y * (n + 1) + (n - k / 2)

/-! ## Reading the buffers back -/

/-- The floats that the attribute configured by `glVertexAttribPointer(_, size,
GL_FLOAT, GL_FALSE, stride * sizeof(float), (void*)(offset * sizeof(float)))`
has for vertex `v` of the array buffer `data`. -/
def readAttrib {α : Type} (data : List α) (stride offset size v : Nat) : List α :=
  (data.drop (stride * v + offset)).take size

section TorusVertex

variable {α : Type} [Field α]

/-- The triple `(2 * xPos, 2 * yPos, 2 * zPos)` that `renderTorus` emplaces as
position and as normal for `(i, j, k)` (lines 738-749). -/
def torusPos (M : Math α) (TAU : α) (r c : α) (rSeg cSeg : Nat) (i j k : Nat) : Vec3 α :=
  let s : α := (((i + k) % rSeg : Nat) : α) + 1 / 2
  let t : α := ((j % (cSeg + 1) : Nat) : α)
  let xPos := (c + r * M.cos (s * TAU / (rSeg : α))) * M.cos (t * TAU / (cSeg : α))
  let yPos := (c + r * M.cos (s * TAU / (rSeg : α))) * M.sin (t * TAU / (cSeg : α))
  let zPos := r * M.sin (s * TAU / (rSeg : α))
  ⟨2 * xPos, 2 * yPos, 2 * zPos⟩

/-- The pair `(u, v)` that `renderTorus` emplaces as texture coordinate for
`(i, j, k)` (lines 739, 745-746, 750). -/
def torusTex (rSeg cSeg : Nat) (i j k : Nat) : Vec2 α :=
  let t : α := ((j % (cSeg + 1) : Nat) : α)
  let u : α := ((i + k : Nat) : α) / (rSeg : α)
  let v : α := t / (cSeg : α)
  ⟨u, v⟩

end TorusVertex

/-! ## `processInput`: the shadow toggle -/

/-- The two values `glfwGetKey` returns. -/
inductive KeyStatus where
  | RELEASE
  | PRESS
deriving DecidableEq, Repr

/-- The globals `shadows` and `shadowsKeyPressed`. -/
structure ShadowState where
  shadows : Bool
  shadowsKeyPressed : Bool
deriving DecidableEq, Repr

/-- The globals as initialised at lines 46-47. -/
def ShadowState.initial : ShadowState :=
  { shadows := true, shadowsKeyPressed := false }

/-- The two `if` statements on `GLFW_KEY_H` of `processInput` (lines 361-369),
`keyH` being what `glfwGetKey(window, GLFW_KEY_H)` returns in this frame. -/
def processInputShadows (keyH : KeyStatus) (st : ShadowState) : ShadowState :=
  let st : ShadowState :=
    if keyH = KeyStatus.PRESS && !st.shadowsKeyPressed then
      { shadows := !st.shadows, shadowsKeyPressed := true }
    else st
  if keyH = KeyStatus.RELEASE then
    { st with shadowsKeyPressed := false }
  else st

/-- One call of `processInput` per frame, for the frames of `keys` in order. -/
def runShadows (keys : List KeyStatus) (st : ShadowState) : ShadowState :=
  keys.foldl (fun st keyH => processInputShadows keyH st) st

/-! ## `processInput`: the height scale, in binary32 arithmetic

A finite binary32 number is an integer multiple of `2^-149`; the embedding
holds a `float` as that integer (`f32Value` gives its value).  Sums and
differences of two such integers are exact, and `f32Round` rounds them to 24
significant bits, to nearest with ties to even, as the `float` operators
`+=` and `-=` do when `float` expressions are evaluated in binary32 (the
default rounding mode; x86-64 and AArch64 compilers).  Overflow to infinity is
not modelled: the values of `heightScale` stay below 2. -/

/-- One stage of the search for the shift, on a pair (significand so far,
shift so far): a significand of more than `23 + s` bits is shifted by `s`
more places. -/
def sigStage (s : Nat) (p : Nat × Nat) : Nat × Nat :=
  if p.1 < 2 ^ (23 + s) then p else (p.1 / 2 ^ s, p.2 + s)

/-- The number of low bits of `a` that do not fit a 24-bit significand: the
`e` with `a / 2^e < 2^24` and, when `e ≥ 1`, `2^23 ≤ a / 2^e`.  It is found by
the stages 128, 64, ..., 1, which reach every `a < 2^279`; the finite binary32
magnitudes are below `2^277`. -/
def sigShift (a : Nat) : Nat :=
  (sigStage 1 (sigStage 2 (sigStage 4 (sigStage 8 (sigStage 16 (sigStage 32
    (sigStage 64 (sigStage 128 (a, 0))))))))).2

/-- Rounding of a magnitude (in units of `2^-149`) to a 24-bit significand:
to nearest, ties to the even significand. -/
def roundNat24 (a : Nat) : Nat :=
  let e := sigShift a
  let q := a / 2 ^ e
  let r := a % 2 ^ e
  if 2 ^ e < 2 * r ∨ (2 * r = 2 ^ e ∧ q % 2 = 1) then (q + 1) * 2 ^ e else q * 2 ^ e

/-- Rounding of an exact result (in units of `2^-149`) to binary32; the sign
is kept and the magnitude rounded. -/
def f32Round (n : Int) : Int :=
  if 0 ≤ n then Int.ofNat (roundNat24 n.toNat) else -Int.ofNat (roundNat24 (-n).toNat)

/-- The rational value of a binary32 number held in units of `2^-149`. -/
def f32Value (n : Int) : ℚ := (n : ℚ) / 2 ^ 149

/-- A magnitude that a 24-bit significand holds exactly. -/
def F32Representable (a : Nat) : Prop :=
  ∃ q e : Nat, q < 2 ^ 24 ∧ a = q * 2 ^ e

/-- The literal `0.0005f`: the binary32 number `8589935 * 2^-34`. -/
def f32Step : Int := Int.ofNat (8589935 * 2 ^ 115)

/-- The literal `1.0f`. -/
def f32One : Int := Int.ofNat (2 ^ 149)

/-- The initial value of the global `heightScale` (line 41): the literal `0.1`
stored in a `float`, the binary32 number `13421773 * 2^-27`. -/
def heightScaleInitial : Int := Int.ofNat (13421773 * 2 ^ 122)

/-- The binary32 number `1 + 4195 * 2^-23`, the next one above
`1 + 0.0005f`. -/
def heightScaleUpper : Int := Int.ofNat (8392803 * 2 ^ 126)

/-- The `if`/`else if` on `GLFW_KEY_Q` and `GLFW_KEY_E` of `processInput`
(lines 371-384) on the `float` global `heightScale`. -/
def processInputHeight (keyQ keyE : KeyStatus) (heightScale : Int) : Int :=
  if keyQ = KeyStatus.PRESS then
    if heightScale > 0 then f32Round (heightScale - f32Step) else 0
  else if keyE = KeyStatus.PRESS then
    if heightScale < f32One then f32Round (heightScale + f32Step) else f32One
  else heightScale

/-- One call of `processInput` per frame, for the frames of `keys` in order;
a frame is the status of Q and the status of E. -/
def runHeight (keys : List (KeyStatus × KeyStatus)) (heightScale : Int) : Int :=
  keys.foldl (fun h frame => processInputHeight frame.1 frame.2 h) heightScale

/-! ## Loop lemmas -/

/-- A quantity that grows by `k` in every step of a fold has grown by
`k * length` at its end. -/
theorem foldl_measure {σ ι : Type} (len : σ → Nat) (f : σ → ι → σ) (k : Nat)
    (h : ∀ s i, len (f s i) = len s + k) (l : List ι) (s : σ) :
    len (l.foldl f s) = len s + k * l.length := by
  induction l generalizing s with
  | nil => simp
  | cons a l ih =>
    rw [List.foldl_cons, ih, h, List.length_cons]
    ring

/-- A property kept by every step of a fold over `l` holds at its end. -/
theorem foldl_invariant {σ ι : Type} (P : σ → Prop) (f : σ → ι → σ) (l : List ι)
    (h : ∀ s i, i ∈ l → P s → P (f s i)) (s : σ) (hs : P s) : P (l.foldl f s) := by
  induction l generalizing s with
  | nil => simpa using hs
  | cons a l ih =>
    rw [List.foldl_cons]
    apply ih
    · intro s i hi
      exact h s i (List.mem_cons_of_mem _ hi)
    · exact h s a (List.mem_cons_self _ _) hs

theorem forUpTo_measure {σ : Type} (len : σ → Nat) (body : Nat → σ → σ) (k : Nat)
    (h : ∀ x s, len (body x s) = len s + k) (n : Nat) (s : σ) :
    len (forUpTo n body s) = len s + k * (n + 1) := by
  unfold forUpTo
  rw [foldl_measure len _ k (fun s i => h i s), List.length_range]

theorem forBelow_measure {σ : Type} (len : σ → Nat) (body : Nat → σ → σ) (k : Nat)
    (h : ∀ x s, len (body x s) = len s + k) (n : Nat) (s : σ) :
    len (forBelow n body s) = len s + k * n := by
  unfold forBelow
  rw [foldl_measure len _ k (fun s i => h i s), List.length_range]

theorem forDownFrom_measure {σ : Type} (len : σ → Nat) (body : Nat → σ → σ) (k : Nat)
    (h : ∀ x s, len (body x s) = len s + k) (n : Nat) (s : σ) :
    len (forDownFrom n body s) = len s + k * (n + 1) := by
  unfold forDownFrom
  rw [foldl_measure len _ k (fun s i => h i s), List.length_reverse, List.length_range]

theorem forUpTo_invariant {σ : Type} (P : σ → Prop) (body : Nat → σ → σ) (n : Nat)
    (h : ∀ x s, x ≤ n → P s → P (body x s)) (s : σ) (hs : P s) : P (forUpTo n body s) := by
  unfold forUpTo
  refine foldl_invariant P _ _ (fun s i hi => h i s ?_) s hs
  have := List.mem_range.mp hi
  omega

theorem forBelow_invariant {σ : Type} (P : σ → Prop) (body : Nat → σ → σ) (n : Nat)
    (h : ∀ x s, x < n → P s → P (body x s)) (s : σ) (hs : P s) : P (forBelow n body s) := by
  unfold forBelow
  exact foldl_invariant P _ _ (fun s i hi => h i s (List.mem_range.mp hi)) s hs

theorem forDownFrom_invariant {σ : Type} (P : σ → Prop) (body : Nat → σ → σ) (n : Nat)
    (h : ∀ x s, x ≤ n → P s → P (body x s)) (s : σ) (hs : P s) :
    P (forDownFrom n body s) := by
  unfold forDownFrom
  refine foldl_invariant P _ _ (fun s i hi => h i s ?_) s hs
  have := List.mem_range.mp (List.mem_reverse.mp hi)
  omega

/-! ## Sizes of the sphere and torus buffers -/

theorem sphereEmplace_positions_length {α : Type} [Field α] (M : Math α) (PI TAU : α)
    (xSeg ySeg y x : Nat) (a : Attribs α) :
    (sphereEmplace M PI TAU xSeg ySeg y x a).positions.length = a.positions.length + 1 := by
  simp [sphereEmplace, Attribs.emplace]

theorem sphereAttribs_positions_length {α : Type} [Field α] (M : Math α) (PI TAU : α)
    (xSeg ySeg : Nat) :
    (sphereAttribs M PI TAU xSeg ySeg).positions.length = (xSeg + 1) * (ySeg + 1) := by
  have inner : ∀ (y : Nat) (a : Attribs α),
      (forUpTo xSeg (fun x a => sphereEmplace M PI TAU xSeg ySeg y x a) a).positions.length
        = a.positions.length + (xSeg + 1) := by
    intro y a
    have h := forUpTo_measure (fun a : Attribs α => a.positions.length)
      (fun x a => sphereEmplace M PI TAU xSeg ySeg y x a) 1
      (fun x a => sphereEmplace_positions_length M PI TAU xSeg ySeg y x a) xSeg a
    simpa using h
  have h := forUpTo_measure (fun a : Attribs α => a.positions.length)
    (fun y a => forUpTo xSeg (fun x a => sphereEmplace M PI TAU xSeg ySeg y x a) a)
    (xSeg + 1) inner ySeg Attribs.empty
  simpa [sphereAttribs, Attribs.empty] using h

theorem sphereRow_length (xSeg y : Nat) (st : Strip) :
    (sphereRow xSeg y st).indices.length = st.indices.length + 2 * (xSeg + 1) := by
  unfold sphereRow
  cases st.oddRow
  · exact forUpTo_measure List.length _ 2 (fun x s => by simp) xSeg st.indices
  · exact forDownFrom_measure List.length _ 2 (fun x s => by simp) xSeg st.indices

theorem sphereIndices_length (xSeg ySeg : Nat) :
    (sphereIndices xSeg ySeg).length = 2 * ySeg * (xSeg + 1) := by
  have h := forBelow_measure (fun st : Strip => st.indices.length) (sphereRow xSeg)
    (2 * (xSeg + 1)) (fun y st => sphereRow_length xSeg y st) ySeg
    { indices := [], oddRow := false }
  unfold sphereIndices
  rw [h]
  simp
  ring

theorem torusEmplace_positions_length {α : Type} [Field α] (M : Math α) (TAU r c : α)
    (rSeg cSeg i j k : Nat) (a : Attribs α) :
    (torusEmplace M TAU r c rSeg cSeg i j k a).positions.length = a.positions.length + 1 := by
  simp [torusEmplace, Attribs.emplace]

theorem torusAttribs_positions_length {α : Type} [Field α] (M : Math α) (TAU r c : α)
    (rSeg cSeg : Nat) :
    (torusAttribs M TAU r c rSeg cSeg).positions.length = 2 * (rSeg + 1) * (cSeg + 1) := by
  have innermost : ∀ (i j : Nat) (a : Attribs α),
      (forBelow 2 (fun k a => torusEmplace M TAU r c rSeg cSeg i j k a) a).positions.length
        = a.positions.length + 2 := by
    intro i j a
    have h := forBelow_measure (fun a : Attribs α => a.positions.length)
      (fun k a => torusEmplace M TAU r c rSeg cSeg i j k a) 1
      (fun k a => torusEmplace_positions_length M TAU r c rSeg cSeg i j k a) 2 a
    simpa using h
  have inner : ∀ (i : Nat) (a : Attribs α),
      (forUpTo cSeg (fun j a =>
        forBelow 2 (fun k a => torusEmplace M TAU r c rSeg cSeg i j k a) a) a).positions.length
        = a.positions.length + 2 * (cSeg + 1) := by
    intro i a
    exact forUpTo_measure (fun a : Attribs α => a.positions.length)
      (fun j a => forBelow 2 (fun k a => torusEmplace M TAU r c rSeg cSeg i j k a) a) 2
      (innermost i) cSeg a
  have h := forUpTo_measure (fun a : Attribs α => a.positions.length)
    (fun i a => forUpTo cSeg (fun j a =>
      forBelow 2 (fun k a => torusEmplace M TAU r c rSeg cSeg i j k a) a) a)
    (2 * (cSeg + 1)) inner rSeg Attribs.empty
  unfold torusAttribs
  rw [h]
  simp [Attribs.empty]
  ring

theorem torusRow_length (rSeg j : Nat) (st : Strip) :
    (torusRow rSeg j st).indices.length = st.indices.length + 2 * (rSeg + 1) := by
  unfold torusRow
  cases st.oddRow
  · exact forUpTo_measure List.length _ 2 (fun x s => by simp) rSeg st.indices
  · exact forDownFrom_measure List.length _ 2 (fun x s => by simp) rSeg st.indices

theorem torusIndices_length (rSeg cSeg : Nat) :
    (torusIndices rSeg cSeg).length = 2 * cSeg * (rSeg + 1) := by
  have h := forBelow_measure (fun st : Strip => st.indices.length) (torusRow rSeg)
    (2 * (rSeg + 1)) (fun j st => torusRow_length rSeg j st) cSeg
    { indices := [], oddRow := false }
  unfold torusIndices
  rw [h]
  simp
  ring

/-! ## Index values stay below a bound -/

/-- Both indices pushed for column `x` of row `y` are below `(n + 1) * (m + 1)`
when `x ≤ n` and `y < m`. -/
theorem pair_lt_grid (n m y x : Nat) (hx : x ≤ n) (hy : y < m) :
    y * (n + 1) + x < (n + 1) * (m + 1) ∧ (y + 1) * (n + 1) + x < (n + 1) * (m + 1) := by
  have h1 : (y + 1) * (n + 1) ≤ m * (n + 1) := Nat.mul_le_mul_right _ hy
  have h2 : (n + 1) * (m + 1) = m * (n + 1) + (n + 1) := by ring
  have h3 : (y + 1) * (n + 1) = y * (n + 1) + (n + 1) := by ring
  omega

theorem sphereRow_bound (xSeg B y : Nat) (st : Strip)
    (hlo : ∀ x, x ≤ xSeg → y * (xSeg + 1) + x < B)
    (hhi : ∀ x, x ≤ xSeg → (y + 1) * (xSeg + 1) + x < B)
    (hst : ∀ v ∈ st.indices, v < B) :
    ∀ v ∈ (sphereRow xSeg y st).indices, v < B := by
  unfold sphereRow
  cases st.oddRow
  · refine forUpTo_invariant (fun ind : List Nat => ∀ v ∈ ind, v < B) _ xSeg ?_ st.indices hst
    intro x ind hx hind v hv
    simp only [List.mem_append, List.mem_singleton] at hv
    rcases hv with (hv | hv) | hv
    · exact hind v hv
    · exact hv ▸ hlo x hx
    · exact hv ▸ hhi x hx
  · refine forDownFrom_invariant (fun ind : List Nat => ∀ v ∈ ind, v < B) _ xSeg ?_ st.indices hst
    intro x ind hx hind v hv
    simp only [List.mem_append, List.mem_singleton] at hv
    rcases hv with (hv | hv) | hv
    · exact hind v hv
    · exact hv ▸ hhi x hx
    · exact hv ▸ hlo x hx

theorem sphereIndices_lt (xSeg ySeg : Nat) :
    ∀ v ∈ sphereIndices xSeg ySeg, v < (xSeg + 1) * (ySeg + 1) := by
  unfold sphereIndices
  refine forBelow_invariant (fun st : Strip => ∀ v ∈ st.indices, v < (xSeg + 1) * (ySeg + 1))
    (sphereRow xSeg) ySeg ?_ _ ?_
  · intro y st hy hst
    exact sphereRow_bound xSeg _ y st
      (fun x hx => (pair_lt_grid xSeg ySeg y x hx hy).1)
      (fun x hx => (pair_lt_grid xSeg ySeg y x hx hy).2) hst
  · intro v hv
    simp at hv

theorem torusRow_bound (rSeg B j : Nat) (st : Strip)
    (hlo : ∀ i, i ≤ rSeg → j * (rSeg + 1) + i < B)
    (hhi : ∀ i, i ≤ rSeg → (j + 1) * (rSeg + 1) + i < B)
    (hst : ∀ v ∈ st.indices, v < B) :
    ∀ v ∈ (torusRow rSeg j st).indices, v < B := by
  unfold torusRow
  cases st.oddRow
  · refine forUpTo_invariant (fun ind : List Nat => ∀ v ∈ ind, v < B) _ rSeg ?_ st.indices hst
    intro x ind hx hind v hv
    simp only [List.mem_append, List.mem_singleton] at hv
    rcases hv with (hv | hv) | hv
    · exact hind v hv
    · exact hv ▸ hlo x hx
    · exact hv ▸ hhi x hx
  · refine forDownFrom_invariant (fun ind : List Nat => ∀ v ∈ ind, v < B) _ rSeg ?_ st.indices hst
    intro x ind hx hind v hv
    simp only [List.mem_append, List.mem_singleton] at hv
    rcases hv with (hv | hv) | hv
    · exact hind v hv
    · exact hv ▸ hhi x hx
    · exact hv ▸ hlo x hx

theorem torusIndices_lt (rSeg cSeg : Nat) :
    ∀ v ∈ torusIndices rSeg cSeg, v < (rSeg + 1) * (cSeg + 1) := by
  unfold torusIndices
  refine forBelow_invariant (fun st : Strip => ∀ v ∈ st.indices, v < (rSeg + 1) * (cSeg + 1))
    (torusRow rSeg) cSeg ?_ _ ?_
  · intro j st hj hst
    exact torusRow_bound rSeg _ j st
      (fun i hi => (pair_lt_grid rSeg cSeg j i hi hj).1)
      (fun i hi => (pair_lt_grid rSeg cSeg j i hi hj).2) hst
  · intro v hv
    simp at hv

/-- Every index value the sphere loops compute is below the vertex count, so
as long as the vertex count fits a 32-bit `int` no intermediate value of
`y * (xSeg + 1) + x` leaves the range of `int`, and the conversion to
`unsigned int` on `push_back` keeps the value. -/
theorem sphereIndices_fit_int (xSeg ySeg : Nat) (h : (xSeg + 1) * (ySeg + 1) ≤ 2 ^ 31) :
    ∀ v ∈ sphereIndices xSeg ySeg, v % 2 ^ 32 = v ∧ v < 2 ^ 31 := by
  intro v hv
  have := sphereIndices_lt xSeg ySeg v hv
  have h2 : v < 2 ^ 31 := lt_of_lt_of_le this h
  refine ⟨Nat.mod_eq_of_lt ?_, h2⟩
  have : (2 : Nat) ^ 31 < 2 ^ 32 := by norm_num
  omega

/-! ## Claims C1, C2, C3 -/

/-- C1. For every horizontal segment count `X ≥ 1` and vertical segment count
`Y ≥ 1` the build branch of `renderSphere` produces exactly `(X+1)(Y+1)`
vertices and an index sequence of length exactly `2*Y*(X+1)`. -/
theorem sphere_counts {α : Type} [Field α] (M : Math α) (PI TAU : α) (X Y : Nat)
    (_hX : 1 ≤ X) (_hY : 1 ≤ Y) :
    (sphereAttribs M PI TAU X Y).positions.length = (X + 1) * (Y + 1) ∧
      (sphereIndices X Y).length = 2 * Y * (X + 1) :=
  ⟨sphereAttribs_positions_length M PI TAU X Y, sphereIndices_length X Y⟩

/-- Witness of C1 at `X = 3`, `Y = 2`, over the rationals. -/
theorem sphere_counts_witness :
    (1 ≤ 3 ∧ 1 ≤ 2) ∧
      (sphereAttribs (⟨id, id, id⟩ : Math ℚ) 3 6 3 2).positions.length = (3 + 1) * (2 + 1) ∧
      (sphereIndices 3 2).length = 2 * 2 * (3 + 1) :=
  ⟨by decide, sphere_counts (⟨id, id, id⟩ : Math ℚ) 3 6 3 2 (by decide) (by decide)⟩

/-- C2. Mesh invariant: for `X ≥ 1`, `Y ≥ 1` every value of the sphere's index
sequence is below `(X+1)(Y+1)`, the sphere's vertex count; for `R ≥ 3`,
`C ≥ 3` every value of the torus's index sequence is below `2*(R+1)*(C+1)`,
the torus's vertex count. -/
theorem indices_lt_vertex_count {α : Type} [Field α] (M : Math α) (PI TAU r c : α)
    (X Y R C : Nat) (_hX : 1 ≤ X) (_hY : 1 ≤ Y) (_hR : 3 ≤ R) (_hC : 3 ≤ C) :
    ((sphereAttribs M PI TAU X Y).positions.length = (X + 1) * (Y + 1) ∧
        ∀ v ∈ sphereIndices X Y, v < (X + 1) * (Y + 1)) ∧
      ((torusAttribs M TAU r c R C).positions.length = 2 * (R + 1) * (C + 1) ∧
        ∀ v ∈ torusIndices R C, v < 2 * (R + 1) * (C + 1)) := by
  refine ⟨⟨sphereAttribs_positions_length M PI TAU X Y, sphereIndices_lt X Y⟩,
    torusAttribs_positions_length M TAU r c R C, ?_⟩
  intro v hv
  have := torusIndices_lt R C v hv
  have h2 : 2 * (R + 1) * (C + 1) = (R + 1) * (C + 1) + (R + 1) * (C + 1) := by ring
  omega

/-- Witness of C2 at `X = Y = 2`, `R = C = 3`, over the rationals. -/
theorem indices_lt_vertex_count_witness :
    (1 ≤ 2 ∧ 1 ≤ 2 ∧ 3 ≤ 3 ∧ 3 ≤ 3) ∧
      ((sphereAttribs (⟨id, id, id⟩ : Math ℚ) 3 6 2 2).positions.length = (2 + 1) * (2 + 1) ∧
        ∀ v ∈ sphereIndices 2 2, v < (2 + 1) * (2 + 1)) ∧
      ((torusAttribs (⟨id, id, id⟩ : Math ℚ) 6 1 2 3 3).positions.length
          = 2 * (3 + 1) * (3 + 1) ∧
        ∀ v ∈ torusIndices 3 3, v < 2 * (3 + 1) * (3 + 1)) :=
  ⟨by decide, indices_lt_vertex_count (⟨id, id, id⟩ : Math ℚ) 3 6 1 2 2 2 3 3
    (by decide) (by decide) (by decide) (by decide)⟩

/-- C3. For every ring segment count `R ≥ 3`, cross-section segment count
`C ≥ 3` and any radii, the build branch of `renderTorus` returns a mesh with
exactly `2*(R+1)*(C+1)` vertices and an index sequence of length exactly
`2*C*(R+1)`. -/
theorem torus_counts {α : Type} [Field α] (M : Math α) (TAU r c : α) (R C : Nat)
    (hR : 3 ≤ R) (_hC : 3 ≤ C) :
    ∃ mesh, torusBuild M TAU r c R C = some mesh ∧
      mesh.attribs.positions.length = 2 * (R + 1) * (C + 1) ∧
      mesh.indices.length = 2 * C * (R + 1) := by
  have hR0 : R ≠ 0 := by omega
  refine ⟨⟨torusAttribs M TAU r c R C, torusIndices R C⟩, ?_, ?_, ?_⟩
  · simp [torusBuild, hR0]
  · exact torusAttribs_positions_length M TAU r c R C
  · exact torusIndices_length R C

/-- Witness of C3 at `R = 3`, `C = 4`, over the rationals. -/
theorem torus_counts_witness :
    (3 ≤ 3 ∧ 3 ≤ 4) ∧
      ∃ mesh, torusBuild (⟨id, id, id⟩ : Math ℚ) 6 1 2 3 4 = some mesh ∧
        mesh.attribs.positions.length = 2 * (3 + 1) * (4 + 1) ∧
        mesh.indices.length = 2 * 4 * (3 + 1) :=
  ⟨by decide, torus_counts (⟨id, id, id⟩ : Math ℚ) 6 1 2 3 4 (by decide) (by decide)⟩

/-! ## The wall: tangent and bitangent -/

theorem real_sqrt_four : Real.sqrt 4 = 2 := by
  rw [show (4 : ℝ) = 2 ^ 2 by norm_num]
  exact Real.sqrt_sq (by norm_num)

/-- The four vectors `renderWall` computes from its hard-coded values, in real
arithmetic. -/
theorem wallTangents_wallQuad_real :
    wallTangents (⟨Real.cos, Real.sin, Real.sqrt⟩ : Math ℝ) wallQuad =
      { tangent1 := ⟨1, 0, 0⟩, bitangent1 := ⟨0, 1, 0⟩,
        tangent2 := ⟨1, 0, 0⟩, bitangent2 := ⟨0, 1, 0⟩ } := by
  simp only [wallTangents, tangentOf, bitangentOf, normalize, dot, wallQuad, Vec3.sub, Vec2.sub]
  norm_num [real_sqrt_four]

theorem dot_self_pos (v : Vec3 ℝ) (h : v ≠ ⟨0, 0, 0⟩) : 0 < dot v v := by
  have h0 : 0 ≤ dot v v := by
    unfold dot
    nlinarith [mul_self_nonneg v.x, mul_self_nonneg v.y, mul_self_nonneg v.z]
  rcases lt_or_eq_of_le h0 with hlt | heq
  · exact hlt
  · exfalso
    apply h
    unfold dot at heq
    have hx : v.x * v.x = 0 := by
      nlinarith [mul_self_nonneg v.x, mul_self_nonneg v.y, mul_self_nonneg v.z]
    have hy : v.y * v.y = 0 := by
      nlinarith [mul_self_nonneg v.x, mul_self_nonneg v.y, mul_self_nonneg v.z]
    have hz : v.z * v.z = 0 := by
      nlinarith [mul_self_nonneg v.x, mul_self_nonneg v.y, mul_self_nonneg v.z]
    cases v with
    | mk x y z =>
      simp only [mul_self_eq_zero] at hx hy hz
      simp [hx, hy, hz]

theorem normalize_unit (M : Math ℝ) (hM : M.sqrt = Real.sqrt) (v : Vec3 ℝ)
    (h : 0 < dot v v) : length M (normalize M v) = 1 := by
  have hs : 0 < Real.sqrt (dot v v) := Real.sqrt_pos.mpr h
  have hsq : Real.sqrt (dot v v) * Real.sqrt (dot v v) = dot v v :=
    Real.mul_self_sqrt (le_of_lt h)
  have key : dot (normalize M v) (normalize M v) = 1 := by
    simp only [normalize, hM]
    have : dot (⟨v.x * (1 / Real.sqrt (dot v v)), v.y * (1 / Real.sqrt (dot v v)),
        v.z * (1 / Real.sqrt (dot v v))⟩ : Vec3 ℝ)
        ⟨v.x * (1 / Real.sqrt (dot v v)), v.y * (1 / Real.sqrt (dot v v)),
        v.z * (1 / Real.sqrt (dot v v))⟩
        = dot v v / (Real.sqrt (dot v v) * Real.sqrt (dot v v)) := by
      simp only [dot]
      field_simp
    rw [this, hsq]
    exact div_self (ne_of_gt h)
  unfold length
  rw [key, hM, Real.sqrt_one]

theorem normalize_dot (M : Math ℝ) (v n : Vec3 ℝ) (h : dot v n = 0) :
    dot (normalize M v) n = 0 := by
  have : dot (normalize M v) n = dot v n * (1 / M.sqrt (dot v v)) := by
    simp only [normalize, dot]
    ring
  rw [this, h, zero_mul]

theorem independent_coeffs (e1 e2 : Vec3 ℝ) (p q : ℝ)
    (hc : cross e1 e2 ≠ ⟨0, 0, 0⟩)
    (hx : p * e1.x + q * e2.x = 0) (hy : p * e1.y + q * e2.y = 0)
    (hz : p * e1.z + q * e2.z = 0) : p = 0 ∧ q = 0 := by
  constructor
  · by_contra hp
    apply hc
    have h1 : p * (e1.y * e2.z - e2.y * e1.z) = 0 := by linear_combination e2.z * hy - e2.y * hz
    have h2 : p * (e1.z * e2.x - e2.z * e1.x) = 0 := by linear_combination e2.x * hz - e2.z * hx
    have h3 : p * (e1.x * e2.y - e2.x * e1.y) = 0 := by linear_combination e2.y * hx - e2.x * hy
    simp only [cross, Vec3.mk.injEq]
    exact ⟨(mul_eq_zero.mp h1).resolve_left hp, (mul_eq_zero.mp h2).resolve_left hp,
      (mul_eq_zero.mp h3).resolve_left hp⟩
  · by_contra hq
    apply hc
    have h1 : q * (e1.y * e2.z - e2.y * e1.z) = 0 := by linear_combination e1.y * hz - e1.z * hy
    have h2 : q * (e1.z * e2.x - e2.z * e1.x) = 0 := by linear_combination e1.z * hx - e1.x * hz
    have h3 : q * (e1.x * e2.y - e2.x * e1.y) = 0 := by linear_combination e1.x * hy - e1.y * hx
    simp only [cross, Vec3.mk.injEq]
    exact ⟨(mul_eq_zero.mp h1).resolve_left hq, (mul_eq_zero.mp h2).resolve_left hq,
      (mul_eq_zero.mp h3).resolve_left hq⟩

/-- A combination `f * (p * e1 + q * e2)` of two independent edges with
`f ≠ 0` and `(p, q) ≠ (0, 0)` is not the zero vector. -/
theorem combination_ne_zero (e1 e2 : Vec3 ℝ) (f p q : ℝ) (hf : f ≠ 0)
    (hc : cross e1 e2 ≠ ⟨0, 0, 0⟩) (hpq : ¬ (p = 0 ∧ q = 0)) :
    (⟨f * (p * e1.x + q * e2.x), f * (p * e1.y + q * e2.y), f * (p * e1.z + q * e2.z)⟩ : Vec3 ℝ)
      ≠ ⟨0, 0, 0⟩ := by
  intro h
  simp only [Vec3.mk.injEq] at h
  obtain ⟨hx, hy, hz⟩ := h
  exact hpq (independent_coeffs e1 e2 p q hc ((mul_eq_zero.mp hx).resolve_left hf)
    ((mul_eq_zero.mp hy).resolve_left hf) ((mul_eq_zero.mp hz).resolve_left hf))

theorem tangentOf_unit_orthogonal (M : Math ℝ) (hM : M.sqrt = Real.sqrt)
    (e1 e2 n : Vec3 ℝ) (d1 d2 : Vec2 ℝ) (hdet : uvDet d1 d2 ≠ 0)
    (hc : cross e1 e2 ≠ ⟨0, 0, 0⟩) (h1 : dot e1 n = 0) (h2 : dot e2 n = 0) :
    UnitOrthogonal M (tangentOf M e1 e2 d1 d2) n := by
  have hf : (1 : ℝ) / (d1.x * d2.y - d2.x * d1.y) ≠ 0 := one_div_ne_zero hdet
  have hne := combination_ne_zero e1 e2 _ d2.y (-d1.y) hf hc (by
    rintro ⟨ha, hb⟩
    apply hdet
    have hb2 : d1.y = 0 := by linarith
    simp [uvDet, ha, hb2])
  have hrw : tangentOf M e1 e2 d1 d2 = normalize M
      ⟨1 / (d1.x * d2.y - d2.x * d1.y) * (d2.y * e1.x + -d1.y * e2.x),
       1 / (d1.x * d2.y - d2.x * d1.y) * (d2.y * e1.y + -d1.y * e2.y),
       1 / (d1.x * d2.y - d2.x * d1.y) * (d2.y * e1.z + -d1.y * e2.z)⟩ := by
    simp only [tangentOf]
    congr 2 <;> ring
  rw [hrw]
  refine ⟨normalize_unit M hM _ (dot_self_pos _ hne), normalize_dot M _ n ?_⟩
  simp only [dot] at h1 h2 ⊢
  linear_combination (1 / (d1.x * d2.y - d2.x * d1.y)) * d2.y * h1
    - (1 / (d1.x * d2.y - d2.x * d1.y)) * d1.y * h2

theorem bitangentOf_unit_orthogonal (M : Math ℝ) (hM : M.sqrt = Real.sqrt)
    (e1 e2 n : Vec3 ℝ) (d1 d2 : Vec2 ℝ) (hdet : uvDet d1 d2 ≠ 0)
    (hc : cross e1 e2 ≠ ⟨0, 0, 0⟩) (h1 : dot e1 n = 0) (h2 : dot e2 n = 0) :
    UnitOrthogonal M (bitangentOf M e1 e2 d1 d2) n := by
  have hf : (1 : ℝ) / (d1.x * d2.y - d2.x * d1.y) ≠ 0 := one_div_ne_zero hdet
  have hne := combination_ne_zero e1 e2 _ (-d2.x) d1.x hf hc (by
    rintro ⟨ha, hb⟩
    apply hdet
    have ha2 : d2.x = 0 := by linarith
    simp [uvDet, ha2, hb])
  have hrw : bitangentOf M e1 e2 d1 d2 = normalize M
      ⟨1 / (d1.x * d2.y - d2.x * d1.y) * (-d2.x * e1.x + d1.x * e2.x),
       1 / (d1.x * d2.y - d2.x * d1.y) * (-d2.x * e1.y + d1.x * e2.y),
       1 / (d1.x * d2.y - d2.x * d1.y) * (-d2.x * e1.z + d1.x * e2.z)⟩ := by
    simp only [bitangentOf]
  rw [hrw]
  refine ⟨normalize_unit M hM _ (dot_self_pos _ hne), normalize_dot M _ n ?_⟩
  simp only [dot] at h1 h2 ⊢
  linear_combination -(1 / (d1.x * d2.y - d2.x * d1.y)) * d2.x * h1
    + (1 / (d1.x * d2.y - d2.x * d1.y)) * d1.x * h2

/-! ## Claims C4, C5, C6 -/

/-- C4, as stated, fails: on the values hard-coded in `renderWall` the four
vectors are not tangent `(1,0,0)` and bitangent `(0,-1,0)` for both triangles
(the bitangent's second coordinate is `1`, not `-1`). -/
theorem wallQuad_bitangent_not_negative :
    ¬ ((wallTangents (⟨Real.cos, Real.sin, Real.sqrt⟩ : Math ℝ) wallQuad).tangent1
          = ⟨1, 0, 0⟩ ∧
       (wallTangents (⟨Real.cos, Real.sin, Real.sqrt⟩ : Math ℝ) wallQuad).bitangent1
          = ⟨0, -1, 0⟩ ∧
       (wallTangents (⟨Real.cos, Real.sin, Real.sqrt⟩ : Math ℝ) wallQuad).tangent2
          = ⟨1, 0, 0⟩ ∧
       (wallTangents (⟨Real.cos, Real.sin, Real.sqrt⟩ : Math ℝ) wallQuad).bitangent2
          = ⟨0, -1, 0⟩) := by
  rw [wallTangents_wallQuad_real]
  intro h
  have := congrArg Vec3.y h.2.1
  norm_num at this

/-- C4, amended. On positions `(-1,1,0),(-1,-1,0),(1,-1,0),(1,1,0)`, UVs
`(0,1),(0,0),(1,0),(1,1)` and normal `(0,0,1)`, the inputs hard-coded in
`renderWall`, the tangent of both triangles is `(1,0,0)` and the bitangent of
both triangles is `(0,1,0)`. -/
theorem wallQuad_tangents :
    (wallTangents (⟨Real.cos, Real.sin, Real.sqrt⟩ : Math ℝ) wallQuad).tangent1 = ⟨1, 0, 0⟩ ∧
    (wallTangents (⟨Real.cos, Real.sin, Real.sqrt⟩ : Math ℝ) wallQuad).bitangent1 = ⟨0, 1, 0⟩ ∧
    (wallTangents (⟨Real.cos, Real.sin, Real.sqrt⟩ : Math ℝ) wallQuad).tangent2 = ⟨1, 0, 0⟩ ∧
    (wallTangents (⟨Real.cos, Real.sin, Real.sqrt⟩ : Math ℝ) wallQuad).bitangent2 = ⟨0, 1, 0⟩ := by
  rw [wallTangents_wallQuad_real]
  exact ⟨rfl, rfl, rfl, rfl⟩

/-- C5, as stated, fails twice, each time with non-zero UV determinants in
both triangles.  With the normal `(1,0,0)` the first tangent, `(1,0,0)`, has
dot product `1` with the normal.  With all four corners at the origin the
un-normalised first tangent is the zero vector, and so is its multiple by
`1 / sqrt 0` whatever that factor is: the length is `0`. -/
theorem wallTangents_not_unit_orthogonal :
    (uvDet ((inPlaneNormalQuad : Quad ℝ).uv2.sub inPlaneNormalQuad.uv1)
        ((inPlaneNormalQuad : Quad ℝ).uv3.sub inPlaneNormalQuad.uv1) ≠ 0 ∧
      uvDet ((inPlaneNormalQuad : Quad ℝ).uv3.sub inPlaneNormalQuad.uv1)
        ((inPlaneNormalQuad : Quad ℝ).uv4.sub inPlaneNormalQuad.uv1) ≠ 0 ∧
      dot (wallTangents (⟨Real.cos, Real.sin, Real.sqrt⟩ : Math ℝ) inPlaneNormalQuad).tangent1
        (inPlaneNormalQuad : Quad ℝ).nm = 1 ∧
      ¬ UnitOrthogonal (⟨Real.cos, Real.sin, Real.sqrt⟩ : Math ℝ)
        (wallTangents (⟨Real.cos, Real.sin, Real.sqrt⟩ : Math ℝ) inPlaneNormalQuad).tangent1
        (inPlaneNormalQuad : Quad ℝ).nm) ∧
    (uvDet ((collapsedQuad : Quad ℝ).uv2.sub collapsedQuad.uv1)
        ((collapsedQuad : Quad ℝ).uv3.sub collapsedQuad.uv1) ≠ 0 ∧
      uvDet ((collapsedQuad : Quad ℝ).uv3.sub collapsedQuad.uv1)
        ((collapsedQuad : Quad ℝ).uv4.sub collapsedQuad.uv1) ≠ 0 ∧
      length (⟨Real.cos, Real.sin, Real.sqrt⟩ : Math ℝ)
        (wallTangents (⟨Real.cos, Real.sin, Real.sqrt⟩ : Math ℝ) collapsedQuad).tangent1 = 0 ∧
      ¬ UnitOrthogonal (⟨Real.cos, Real.sin, Real.sqrt⟩ : Math ℝ)
        (wallTangents (⟨Real.cos, Real.sin, Real.sqrt⟩ : Math ℝ) collapsedQuad).tangent1
        (collapsedQuad : Quad ℝ).nm) := by
  have hA : dot (wallTangents (⟨Real.cos, Real.sin, Real.sqrt⟩ : Math ℝ)
      inPlaneNormalQuad).tangent1 (inPlaneNormalQuad : Quad ℝ).nm = 1 := by
    simp only [wallTangents, tangentOf, normalize, dot, inPlaneNormalQuad, wallQuad, Vec3.sub,
      Vec2.sub]
    norm_num [real_sqrt_four]
  have hB : length (⟨Real.cos, Real.sin, Real.sqrt⟩ : Math ℝ)
      (wallTangents (⟨Real.cos, Real.sin, Real.sqrt⟩ : Math ℝ) collapsedQuad).tangent1 = 0 := by
    simp only [length, wallTangents, tangentOf, normalize, dot, collapsedQuad, wallQuad,
      Vec3.sub, Vec2.sub]
    norm_num
  refine ⟨⟨?_, ?_, hA, ?_⟩, ?_, ?_, hB, ?_⟩
  · norm_num [uvDet, inPlaneNormalQuad, wallQuad, Vec2.sub]
  · norm_num [uvDet, inPlaneNormalQuad, wallQuad, Vec2.sub]
  · intro h
    have h2 := h.2
    rw [hA] at h2
    norm_num at h2
  · norm_num [uvDet, collapsedQuad, wallQuad, Vec2.sub]
  · norm_num [uvDet, collapsedQuad, wallQuad, Vec2.sub]
  · intro h
    have h1 := h.1
    rw [hB] at h1
    norm_num at h1

/-- C5, amended. For every quad input whose UV determinant is non-zero for
both triangles, whose two edges in each triangle are linearly independent
(non-zero cross product) and whose supplied normal has dot product 0 with the
edges `pos2-pos1`, `pos3-pos1`, `pos4-pos1`, the tangent and the bitangent of
each triangle have length 1 and dot product 0 with the supplied normal, in
real arithmetic. -/
theorem wallTangents_unit_orthogonal (q : Quad ℝ)
    (hdet1 : uvDet (q.uv2.sub q.uv1) (q.uv3.sub q.uv1) ≠ 0)
    (hdet2 : uvDet (q.uv3.sub q.uv1) (q.uv4.sub q.uv1) ≠ 0)
    (htri1 : cross (q.pos2.sub q.pos1) (q.pos3.sub q.pos1) ≠ ⟨0, 0, 0⟩)
    (htri2 : cross (q.pos3.sub q.pos1) (q.pos4.sub q.pos1) ≠ ⟨0, 0, 0⟩)
    (hn2 : dot (q.pos2.sub q.pos1) q.nm = 0)
    (hn3 : dot (q.pos3.sub q.pos1) q.nm = 0)
    (hn4 : dot (q.pos4.sub q.pos1) q.nm = 0) :
    UnitOrthogonal (⟨Real.cos, Real.sin, Real.sqrt⟩ : Math ℝ)
      (wallTangents (⟨Real.cos, Real.sin, Real.sqrt⟩ : Math ℝ) q).tangent1 q.nm ∧
    UnitOrthogonal (⟨Real.cos, Real.sin, Real.sqrt⟩ : Math ℝ)
      (wallTangents (⟨Real.cos, Real.sin, Real.sqrt⟩ : Math ℝ) q).bitangent1 q.nm ∧
    UnitOrthogonal (⟨Real.cos, Real.sin, Real.sqrt⟩ : Math ℝ)
      (wallTangents (⟨Real.cos, Real.sin, Real.sqrt⟩ : Math ℝ) q).tangent2 q.nm ∧
    UnitOrthogonal (⟨Real.cos, Real.sin, Real.sqrt⟩ : Math ℝ)
      (wallTangents (⟨Real.cos, Real.sin, Real.sqrt⟩ : Math ℝ) q).bitangent2 q.nm :=
  ⟨tangentOf_unit_orthogonal _ rfl _ _ _ _ _ hdet1 htri1 hn2 hn3,
   bitangentOf_unit_orthogonal _ rfl _ _ _ _ _ hdet1 htri1 hn2 hn3,
   tangentOf_unit_orthogonal _ rfl _ _ _ _ _ hdet2 htri2 hn3 hn4,
   bitangentOf_unit_orthogonal _ rfl _ _ _ _ _ hdet2 htri2 hn3 hn4⟩

/-- Witness of C5 (amended) on the values hard-coded in `renderWall`. -/
theorem wallTangents_unit_orthogonal_witness :
    UnitOrthogonal (⟨Real.cos, Real.sin, Real.sqrt⟩ : Math ℝ)
      (wallTangents (⟨Real.cos, Real.sin, Real.sqrt⟩ : Math ℝ) wallQuad).tangent1
      (wallQuad : Quad ℝ).nm ∧
    UnitOrthogonal (⟨Real.cos, Real.sin, Real.sqrt⟩ : Math ℝ)
      (wallTangents (⟨Real.cos, Real.sin, Real.sqrt⟩ : Math ℝ) wallQuad).bitangent1
      (wallQuad : Quad ℝ).nm ∧
    UnitOrthogonal (⟨Real.cos, Real.sin, Real.sqrt⟩ : Math ℝ)
      (wallTangents (⟨Real.cos, Real.sin, Real.sqrt⟩ : Math ℝ) wallQuad).tangent2
      (wallQuad : Quad ℝ).nm ∧
    UnitOrthogonal (⟨Real.cos, Real.sin, Real.sqrt⟩ : Math ℝ)
      (wallTangents (⟨Real.cos, Real.sin, Real.sqrt⟩ : Math ℝ) wallQuad).bitangent2
      (wallQuad : Quad ℝ).nm :=
  wallTangents_unit_orthogonal wallQuad
    (by norm_num [uvDet, wallQuad, Vec2.sub])
    (by norm_num [uvDet, wallQuad, Vec2.sub])
    (by norm_num [cross, wallQuad, Vec3.sub])
    (by norm_num [cross, wallQuad, Vec3.sub])
    (by norm_num [dot, wallQuad, Vec3.sub])
    (by norm_num [dot, wallQuad, Vec3.sub])
    (by norm_num [dot, wallQuad, Vec3.sub])

/-- C6, as stated, fails: with four identical texture coordinates the UV
determinant of both triangles is zero, and the wall computation still returns
its array of 6 vertices of 14 floats. -/
theorem flatUVQuad_not_rejected :
    uvDet ((flatUVQuad : Quad ℝ).uv2.sub flatUVQuad.uv1)
        ((flatUVQuad : Quad ℝ).uv3.sub flatUVQuad.uv1) = 0 ∧
      uvDet ((flatUVQuad : Quad ℝ).uv3.sub flatUVQuad.uv1)
        ((flatUVQuad : Quad ℝ).uv4.sub flatUVQuad.uv1) = 0 ∧
      wallBuild (⟨Real.cos, Real.sin, Real.sqrt⟩ : Math ℝ) flatUVQuad ≠ none ∧
      ∃ data, wallBuild (⟨Real.cos, Real.sin, Real.sqrt⟩ : Math ℝ) flatUVQuad = some data ∧
        data.length = 6 * 14 := by
  refine ⟨?_, ?_, ?_, _, rfl, ?_⟩
  · norm_num [uvDet, flatUVQuad, wallQuad, Vec2.sub]
  · norm_num [uvDet, flatUVQuad, wallQuad, Vec2.sub]
  · simp [wallBuild]
  · simp [wallVertices, wallRow]

/-- C6, amended. The wall computation rejects nothing: for every quad input,
also one whose UV determinant is zero in a triangle, it returns an array of
6 vertices of 14 floats (there is no `DegenerateUV` outcome). -/
theorem wallBuild_total {α : Type} [Field α] (M : Math α) (q : Quad α) :
    ∃ data, wallBuild M q = some data ∧ data.length = 6 * 14 := by
  refine ⟨_, rfl, ?_⟩
  simp [wallVertices, wallRow]

/-! ## The index loops in closed form -/

theorem foldl_push_pair (a b : Nat → Nat) (l : List Nat) (init : List Nat) :
    l.foldl (fun ind x => (ind ++ [a x]) ++ [b x]) init
      = init ++ l.flatMap (fun x => [a x, b x]) := by
  induction l generalizing init with
  | nil => simp
  | cons x l ih =>
    rw [List.foldl_cons, ih, List.flatMap_cons]
    simp

theorem forBelow_succ {σ : Type} (n : Nat) (body : Nat → σ → σ) (s : σ) :
    forBelow (n + 1) body s = body n (forBelow n body s) := by
  simp [forBelow, List.range_succ, List.foldl_append]

theorem stripIndices_succ (n m : Nat) :
    stripIndices n (m + 1) = stripIndices n m ++ stripRow n m := by
  simp [stripIndices, List.range_succ, List.flatMap_append]

theorem sphereRow_eq (xSeg y : Nat) (ind : List Nat) :
    sphereRow xSeg y { indices := ind, oddRow := decide (y % 2 = 1) }
      = { indices := ind ++ stripRow xSeg y, oddRow := decide ((y + 1) % 2 = 1) } := by
  rcases Nat.mod_two_eq_zero_or_one y with h | h
  · have h1 : (y + 1) % 2 = 1 := by omega
    have e := foldl_push_pair (fun x => y * (xSeg + 1) + x)
      (fun x => (y + 1) * (xSeg + 1) + x) (List.range (xSeg + 1)) ind
    simp only [sphereRow, stripRow, forUpTo, h, h1]
    exact congrArg (fun l => Strip.mk l true) e
  · have h1 : (y + 1) % 2 = 0 := by omega
    have e := foldl_push_pair (fun x => (y + 1) * (xSeg + 1) + x)
      (fun x => y * (xSeg + 1) + x) (List.range (xSeg + 1)).reverse ind
    simp only [sphereRow, stripRow, forDownFrom, h, h1]
    exact congrArg (fun l => Strip.mk l false) e

theorem sphereLoop_eq (xSeg ySeg : Nat) :
    forBelow ySeg (sphereRow xSeg) { indices := [], oddRow := false }
      = { indices := stripIndices xSeg ySeg, oddRow := decide (ySeg % 2 = 1) } := by
  induction ySeg with
  | zero => simp [forBelow, stripIndices]
  | succ m ih => rw [forBelow_succ, ih, sphereRow_eq, stripIndices_succ]

/-- The index loops of `renderSphere` emit the rows `stripRow` describes. -/
theorem sphereIndices_eq_strip (xSeg ySeg : Nat) :
    sphereIndices xSeg ySeg = stripIndices xSeg ySeg := by
  unfold sphereIndices
  rw [sphereLoop_eq]

/-! ## Claims C7, C8 -/

/-- C7, as stated, fails: with minor radius `r = 0` (and `c = 0.45`,
`R = C = 3`) the torus build does not fail; it returns a mesh of
`2*(3+1)*(3+1) = 32` vertices and `2*3*(3+1) = 24` indices. -/
theorem torusBuild_zero_radius_not_rejected :
    torusBuild (⟨Real.cos, Real.sin, Real.sqrt⟩ : Math ℝ) (2 * Real.pi) 0 (45 / 100) 3 3 ≠ none ∧
    ∃ mesh, torusBuild (⟨Real.cos, Real.sin, Real.sqrt⟩ : Math ℝ) (2 * Real.pi) 0 (45 / 100) 3 3
        = some mesh ∧
      mesh.attribs.positions.length = 32 ∧ mesh.indices.length = 24 := by
  refine ⟨by simp [torusBuild], ⟨torusAttribs (⟨Real.cos, Real.sin, Real.sqrt⟩ : Math ℝ)
    (2 * Real.pi) 0 (45 / 100) 3 3, torusIndices 3 3⟩, ?_, ?_, ?_⟩
  · simp [torusBuild]
  · exact torusAttribs_positions_length _ _ _ _ 3 3
  · exact torusIndices_length 3 3

/-- C7, amended. The torus build checks none of its arguments: for all radii
`r`, `c` (also `r ≤ 0` or `c ≤ 0`) and all segment counts `R ≥ 1` and `C`
(also below 3) it returns a mesh of `2*(R+1)*(C+1)` vertices and `2*C*(R+1)`
indices; there is no `InvalidParameter` outcome. -/
theorem torusBuild_unchecked {α : Type} [Field α] (M : Math α) (TAU r c : α) (R C : Nat)
    (hR : 1 ≤ R) :
    ∃ mesh, torusBuild M TAU r c R C = some mesh ∧
      mesh.attribs.positions.length = 2 * (R + 1) * (C + 1) ∧
      mesh.indices.length = 2 * C * (R + 1) := by
  have hR0 : R ≠ 0 := by omega
  refine ⟨⟨torusAttribs M TAU r c R C, torusIndices R C⟩, ?_, ?_, ?_⟩
  · simp [torusBuild, hR0]
  · exact torusAttribs_positions_length M TAU r c R C
  · exact torusIndices_length R C

/-- Witness of C7 (amended) at `r = 0`, `c = -1`, `R = 1`, `C = 2`. -/
theorem torusBuild_unchecked_witness :
    1 ≤ 1 ∧
      ∃ mesh, torusBuild (⟨id, id, id⟩ : Math ℚ) 6 0 (-1) 1 2 = some mesh ∧
        mesh.attribs.positions.length = 2 * (1 + 1) * (2 + 1) ∧
        mesh.indices.length = 2 * 2 * (1 + 1) :=
  ⟨by decide, torusBuild_unchecked (⟨id, id, id⟩ : Math ℚ) 6 0 (-1) 1 2 (by decide)⟩

/-- C8, as stated, fails: for `X = 1`, `Y = 2` the index sequence of the
source is `0,2,1,3,5,3,4,2`, while the sequence the specification describes is
`0,2,1,3,3,5,2,4` (the odd row's pairs are emitted lower row first). -/
theorem sphereIndices_ne_spec :
    sphereIndices 1 2 = [0, 2, 1, 3, 5, 3, 4, 2] ∧
      specSphereIndices 1 2 = [0, 2, 1, 3, 3, 5, 2, 4] ∧
      sphereIndices 1 2 ≠ specSphereIndices 1 2 := by
  decide

/-- C8, amended. For every `X ≥ 1`, `Y ≥ 1`, with `stride = X+1`, the sphere
index sequence is the concatenation over rows `y = 0..Y-1` of: for even `y`,
the pairs `(y*stride+x, (y+1)*stride+x)` for `x = 0,1,...,X` in that order;
for odd `y`, the swapped pairs `((y+1)*stride+x, y*stride+x)` for
`x = X,X-1,...,0`. -/
theorem sphereIndices_rows (X Y : Nat) (_hX : 1 ≤ X) (_hY : 1 ≤ Y) :
    sphereIndices X Y = (List.range Y).flatMap (fun y =>
      if y % 2 = 0 then
        (List.range (X + 1)).flatMap (fun x => [y * (X + 1) + x, (y + 1) * (X + 1) + x])
      else
        (List.range (X + 1)).reverse.flatMap
          (fun x => [(y + 1) * (X + 1) + x, y * (X + 1) + x])) := by
  rw [sphereIndices_eq_strip]
  rfl

/-- Witness of C8 (amended) at `X = 2`, `Y = 3`. -/
theorem sphereIndices_rows_witness :
    (1 ≤ 2 ∧ 1 ≤ 3) ∧
      sphereIndices 2 3 = (List.range 3).flatMap (fun y =>
        if y % 2 = 0 then
          (List.range (2 + 1)).flatMap (fun x => [y * (2 + 1) + x, (y + 1) * (2 + 1) + x])
        else
          (List.range (2 + 1)).reverse.flatMap
            (fun x => [(y + 1) * (2 + 1) + x, y * (2 + 1) + x])) :=
  ⟨by decide, sphereIndices_rows 2 3 (by decide) (by decide)⟩

/-! ## Sphere vertices lie on the unit sphere -/

theorem sphereEmplace_onUnitSphere (PI TAU : ℝ) (xSeg ySeg y x : Nat) (a : Attribs ℝ)
    (h : OnUnitSphere a) :
    OnUnitSphere (sphereEmplace (⟨Real.cos, Real.sin, Real.sqrt⟩ : Math ℝ) PI TAU xSeg ySeg y x a) := by
  obtain ⟨hn, hp⟩ := h
  refine ⟨?_, ?_⟩
  · simp [sphereEmplace, Attribs.emplace, hn]
  · intro p hmem
    simp only [sphereEmplace, Attribs.emplace, List.mem_append, List.mem_singleton] at hmem
    rcases hmem with hmem | hmem
    · exact hp p hmem
    · rw [hmem]
      simp only [dot]
      have hA := Real.sin_sq_add_cos_sq ((x : ℝ) / (xSeg : ℝ) * TAU)
      have hB := Real.sin_sq_add_cos_sq ((y : ℝ) / (ySeg : ℝ) * PI)
      linear_combination (Real.sin ((y : ℝ) / (ySeg : ℝ) * PI)) ^ 2 * hA + hB

theorem sphereAttribs_onUnitSphere (PI TAU : ℝ) (xSeg ySeg : Nat) :
    OnUnitSphere (sphereAttribs (⟨Real.cos, Real.sin, Real.sqrt⟩ : Math ℝ) PI TAU xSeg ySeg) := by
  unfold sphereAttribs
  refine forUpTo_invariant OnUnitSphere _ ySeg ?_ Attribs.empty ?_
  · intro y a _ ha
    refine forUpTo_invariant OnUnitSphere _ xSeg ?_ a ha
    intro x a _ ha
    exact sphereEmplace_onUnitSphere PI TAU xSeg ySeg y x a ha
  · exact ⟨rfl, by simp [Attribs.empty]⟩

/-! ## The interleaved buffer -/

theorem foldl_measure_mem {σ ι : Type} (len : σ → Nat) (f : σ → ι → σ) (k : Nat)
    (l : List ι) (h : ∀ s i, i ∈ l → len (f s i) = len s + k) (s : σ) :
    len (l.foldl f s) = len s + k * l.length := by
  induction l generalizing s with
  | nil => simp
  | cons a l ih =>
    rw [List.foldl_cons, ih (fun s i hi => h s i (List.mem_cons_of_mem _ hi)),
      h s a (List.mem_cons_self _ _), List.length_cons]
    ring

theorem emplace_aligned {α : Type} (a : Attribs α) (p n : Vec3 α) (t : Vec2 α)
    (h : Aligned a) : Aligned (a.emplace p n t) := by
  obtain ⟨h1, h2⟩ := h
  constructor <;> simp [Attribs.emplace, h1, h2]

theorem sphereAttribs_aligned {α : Type} [Field α] (M : Math α) (PI TAU : α)
    (xSeg ySeg : Nat) : Aligned (sphereAttribs M PI TAU xSeg ySeg) := by
  unfold sphereAttribs
  refine forUpTo_invariant Aligned _ ySeg ?_ Attribs.empty ⟨rfl, rfl⟩
  intro y a _ ha
  refine forUpTo_invariant Aligned _ xSeg ?_ a ha
  intro x a _ ha
  exact emplace_aligned a _ _ _ ha

theorem torusAttribs_aligned {α : Type} [Field α] (M : Math α) (TAU r c : α)
    (rSeg cSeg : Nat) : Aligned (torusAttribs M TAU r c rSeg cSeg) := by
  unfold torusAttribs
  refine forUpTo_invariant Aligned _ rSeg ?_ Attribs.empty ⟨rfl, rfl⟩
  intro i a _ ha
  refine forUpTo_invariant Aligned _ cSeg ?_ a ha
  intro j a _ ha
  refine forBelow_invariant Aligned _ 2 ?_ a ha
  intro k a _ ha
  exact emplace_aligned a _ _ _ ha

/-- With one normal and one texture coordinate per position, `data` holds 8
floats per vertex. -/
theorem interleave_length {α : Type} (a : Attribs α) (h : Aligned a) :
    (interleave a).length = 8 * a.positions.length := by
  obtain ⟨hn, hu⟩ := h
  unfold interleave forBelow
  rw [foldl_measure_mem List.length _ 8]
  · simp
  · intro data i hi
    have hi : i < a.positions.length := List.mem_range.mp hi
    have hp := List.get?_eq_get hi
    have hnn := List.get?_eq_get (hn ▸ hi : i < a.normals.length)
    have huu := List.get?_eq_get (hu ▸ hi : i < a.uv.length)
    have hne : a.normals.isEmpty = false := by
      cases hl : a.normals with
      | nil => rw [hl] at hn; simp at hn; omega
      | cons _ _ => rfl
    have hue : a.uv.isEmpty = false := by
      cases hl : a.uv with
      | nil => rw [hl] at hu; simp at hu; omega
      | cons _ _ => rfl
    simp only [hp, hnn, huu, hne, hue]
    simp

/-! ## The handles guard the build branch -/

theorem renderSphere_first {α : Type} [Field α] (M : Math α) (PI TAU : α) (vao X Y : Nat) :
    renderSphere M PI TAU vao X Y SphereState.initial =
      ({ sphereVAO := vao, sphereIndexCount := (sphereIndices X Y).length,
         arrayBuffer := interleave (sphereAttribs M PI TAU X Y),
         elementBuffer := sphereIndices X Y },
       { count := (sphereIndices X Y).length,
         arrayBuffer := interleave (sphereAttribs M PI TAU X Y),
         elementBuffer := sphereIndices X Y }) := by
  simp [renderSphere, SphereState.initial]

theorem renderSphere_built {α : Type} [Field α] (M : Math α) (PI TAU : α) (vao X Y : Nat)
    (st : SphereState α) (h : st.sphereVAO ≠ 0) :
    renderSphere M PI TAU vao X Y st =
      (st, { count := st.sphereIndexCount, arrayBuffer := st.arrayBuffer,
             elementBuffer := st.elementBuffer }) := by
  simp [renderSphere, h]

theorem renderTorus_first {α : Type} [Field α] (M : Math α) (TAU : α) (vao : Nat) (r c : α)
    (R C : Nat) (hR : R ≠ 0) :
    renderTorus M TAU vao r c R C TorusState.initial =
      some ({ torusVAO := vao, torusIndexCount := (torusIndices R C).length,
              arrayBuffer := interleave (torusAttribs M TAU r c R C),
              elementBuffer := torusIndices R C },
            { first := 0, count := (torusIndices R C).length,
              arrayBuffer := interleave (torusAttribs M TAU r c R C) }) := by
  simp [renderTorus, TorusState.initial, torusBuild, hR]

theorem renderTorus_built {α : Type} [Field α] (M : Math α) (TAU : α) (vao : Nat) (r c : α)
    (R C : Nat) (st : TorusState α) (h : st.torusVAO ≠ 0) :
    renderTorus M TAU vao r c R C st =
      some (st, { first := 0, count := st.torusIndexCount, arrayBuffer := st.arrayBuffer }) := by
  simp [renderTorus, h]

/-! ## Claims C9, C10 -/

/-- C9. For every `X ≥ 1`, `Y ≥ 1` and every sphere vertex, the normal equals
the position, and the position has squared length exactly 1, in real
arithmetic and for any value of the constants `PI` and `TAU`. -/
theorem sphere_normals_unit (PI TAU : ℝ) (X Y : Nat) (_hX : 1 ≤ X) (_hY : 1 ≤ Y) :
    (sphereAttribs (⟨Real.cos, Real.sin, Real.sqrt⟩ : Math ℝ) PI TAU X Y).normals
        = (sphereAttribs (⟨Real.cos, Real.sin, Real.sqrt⟩ : Math ℝ) PI TAU X Y).positions ∧
      ∀ p ∈ (sphereAttribs (⟨Real.cos, Real.sin, Real.sqrt⟩ : Math ℝ) PI TAU X Y).positions,
        p.x * p.x + p.y * p.y + p.z * p.z = 1 :=
  sphereAttribs_onUnitSphere PI TAU X Y

/-- Witness of C9 at `X = 4`, `Y = 3`, with `PI = π` and `TAU = 2π`. -/
theorem sphere_normals_unit_witness :
    (1 ≤ 4 ∧ 1 ≤ 3) ∧
      (sphereAttribs (⟨Real.cos, Real.sin, Real.sqrt⟩ : Math ℝ) Real.pi (2 * Real.pi) 4 3).normals
        = (sphereAttribs (⟨Real.cos, Real.sin, Real.sqrt⟩ : Math ℝ)
            Real.pi (2 * Real.pi) 4 3).positions ∧
      ∀ p ∈ (sphereAttribs (⟨Real.cos, Real.sin, Real.sqrt⟩ : Math ℝ)
            Real.pi (2 * Real.pi) 4 3).positions,
        p.x * p.x + p.y * p.y + p.z * p.z = 1 :=
  ⟨by decide, sphere_normals_unit Real.pi (2 * Real.pi) 4 3 (by decide) (by decide)⟩

/-- C10, as stated, fails: after a request for the sphere `(1,1)`, a request
for `(2,2)` draws 4 indices, the index sequence of `(1,1)`, not the
`2*2*(2+1) = 12` indices of the mesh of `(2,2)`. -/
theorem renderSphere_later_request_not_rebuilt :
    (renderSphere (⟨Real.cos, Real.sin, Real.sqrt⟩ : Math ℝ) Real.pi (2 * Real.pi) 2 2 2
        (renderSphere (⟨Real.cos, Real.sin, Real.sqrt⟩ : Math ℝ) Real.pi (2 * Real.pi) 1 1 1
          SphereState.initial).1).2.count = 4 ∧
      (renderSphere (⟨Real.cos, Real.sin, Real.sqrt⟩ : Math ℝ) Real.pi (2 * Real.pi) 2 2 2
        (renderSphere (⟨Real.cos, Real.sin, Real.sqrt⟩ : Math ℝ) Real.pi (2 * Real.pi) 1 1 1
          SphereState.initial).1).2.count ≠ 2 * 2 * (2 + 1) ∧
      (renderSphere (⟨Real.cos, Real.sin, Real.sqrt⟩ : Math ℝ) Real.pi (2 * Real.pi) 2 2 2
        (renderSphere (⟨Real.cos, Real.sin, Real.sqrt⟩ : Math ℝ) Real.pi (2 * Real.pi) 1 1 1
          SphereState.initial).1).2.elementBuffer = sphereIndices 1 1 := by
  rw [renderSphere_first, renderSphere_built _ _ _ _ _ _ _ (by simp)]
  simp [sphereIndices_length]

/-- C10, amended. A mesh is built by the first request only. For every two
sphere parameter sets `(X,Y)` and `(X',Y')`, a request for `(X',Y')` made after
a request for `(X,Y)` changes nothing and issues the draw call of the first
request again: the mesh of `(X,Y)`, of `(X+1)(Y+1)` vertices (8 floats each)
and index count `2*Y*(X+1)`. The same for the torus, for `R ≥ 1`: the later
request draws the vertex buffer of `(r,c,R,C)`, of `2*(R+1)*(C+1)` vertices,
with count `2*C*(R+1)`. The vertex array names handed out are non-zero. -/
theorem later_request_reuses_first_mesh {α : Type} [Field α] (M : Math α)
    (PI TAU r c r' c' : α) (vao vao' X Y X' Y' R C R' C' : Nat)
    (hvao : vao ≠ 0) (hR : 1 ≤ R) :
    (renderSphere M PI TAU vao' X' Y' (renderSphere M PI TAU vao X Y SphereState.initial).1
        = renderSphere M PI TAU vao X Y SphereState.initial ∧
      (renderSphere M PI TAU vao X Y SphereState.initial).2.count = 2 * Y * (X + 1) ∧
      (renderSphere M PI TAU vao X Y SphereState.initial).2.elementBuffer = sphereIndices X Y ∧
      (renderSphere M PI TAU vao X Y SphereState.initial).2.arrayBuffer
        = interleave (sphereAttribs M PI TAU X Y) ∧
      (renderSphere M PI TAU vao X Y SphereState.initial).2.arrayBuffer.length
        = 8 * ((X + 1) * (Y + 1))) ∧
    (∃ st draw, renderTorus M TAU vao r c R C TorusState.initial = some (st, draw) ∧
      renderTorus M TAU vao' r' c' R' C' st = some (st, draw) ∧
      draw.count = 2 * C * (R + 1) ∧
      draw.arrayBuffer = interleave (torusAttribs M TAU r c R C) ∧
      draw.arrayBuffer.length = 8 * (2 * (R + 1) * (C + 1))) := by
  have hR0 : R ≠ 0 := by omega
  refine ⟨⟨?_, ?_, ?_, ?_, ?_⟩, ?_⟩
  · rw [renderSphere_first, renderSphere_built _ _ _ _ _ _ _ hvao]
  · rw [renderSphere_first]
    exact sphereIndices_length X Y
  · rw [renderSphere_first]
  · rw [renderSphere_first]
  · rw [renderSphere_first]
    show (interleave (sphereAttribs M PI TAU X Y)).length = _
    rw [interleave_length _ (sphereAttribs_aligned M PI TAU X Y),
      sphereAttribs_positions_length]
  · refine ⟨_, _, renderTorus_first M TAU vao r c R C hR0, ?_, ?_, rfl, ?_⟩
    · rw [renderTorus_built _ _ _ _ _ _ _ _ hvao]
    · exact torusIndices_length R C
    · show (interleave (torusAttribs M TAU r c R C)).length = _
      rw [interleave_length _ (torusAttribs_aligned M TAU r c R C),
        torusAttribs_positions_length]

/-- Witness of C10 (amended): the sphere `(1,1)` then `(2,2)`, the torus
`(1, 2, R = 1, C = 1)` then `(3, 4, R = 3, C = 3)`, over the rationals. -/
theorem later_request_reuses_first_mesh_witness :
    (1 ≠ 0 ∧ 1 ≤ 1) ∧
    (renderSphere (⟨id, id, id⟩ : Math ℚ) 3 6 2 2 2
          (renderSphere (⟨id, id, id⟩ : Math ℚ) 3 6 1 1 1 SphereState.initial).1
        = renderSphere (⟨id, id, id⟩ : Math ℚ) 3 6 1 1 1 SphereState.initial ∧
      (renderSphere (⟨id, id, id⟩ : Math ℚ) 3 6 1 1 1 SphereState.initial).2.count
        = 2 * 1 * (1 + 1) ∧
      (renderSphere (⟨id, id, id⟩ : Math ℚ) 3 6 1 1 1 SphereState.initial).2.elementBuffer
        = sphereIndices 1 1 ∧
      (renderSphere (⟨id, id, id⟩ : Math ℚ) 3 6 1 1 1 SphereState.initial).2.arrayBuffer
        = interleave (sphereAttribs (⟨id, id, id⟩ : Math ℚ) 3 6 1 1) ∧
      (renderSphere (⟨id, id, id⟩ : Math ℚ) 3 6 1 1 1 SphereState.initial).2.arrayBuffer.length
        = 8 * ((1 + 1) * (1 + 1))) ∧
    (∃ st draw, renderTorus (⟨id, id, id⟩ : Math ℚ) 6 1 1 2 1 1 TorusState.initial
        = some (st, draw) ∧
      renderTorus (⟨id, id, id⟩ : Math ℚ) 6 2 3 4 3 3 st = some (st, draw) ∧
      draw.count = 2 * 1 * (1 + 1) ∧
      draw.arrayBuffer = interleave (torusAttribs (⟨id, id, id⟩ : Math ℚ) 6 1 2 1 1) ∧
      draw.arrayBuffer.length = 8 * (2 * (1 + 1) * (1 + 1))) :=
  ⟨by decide, later_request_reuses_first_mesh (⟨id, id, id⟩ : Math ℚ) 3 6 1 2 3 4 1 2 1 1 2 2
    1 1 3 3 (by decide) (by decide)⟩

/-! ## The torus index loops in closed form -/

theorem torusRow_eq_sphereRow (n y : Nat) (st : Strip) : torusRow n y st = sphereRow n y st := by
  unfold torusRow sphereRow
  rfl

/-- The index loops of `renderTorus` emit the rows `stripRow` describes, over
`rSeg + 1` columns and `cSeg` rows. -/
theorem torusIndices_eq_strip (rSeg cSeg : Nat) :
    torusIndices rSeg cSeg = stripIndices rSeg cSeg := by
  have h : torusRow rSeg = sphereRow rSeg := by
    funext j st
    exact torusRow_eq_sphereRow rSeg j st
  unfold torusIndices
  rw [h, sphereLoop_eq]

/-! ## Claims C11, C12, C13 -/

/-- C11. The sphere and the torus use the identical strip-indexing scheme: for
every `R ≥ 1` and `C ≥ 1` the torus index sequence for `(rSeg = R, cSeg = C)`
is equal, element for element, to the sphere index sequence for
`(xSeg = R, ySeg = C)`. -/
theorem torusIndices_eq_sphereIndices (R C : Nat) (_hR : 1 ≤ R) (_hC : 1 ≤ C) :
    torusIndices R C = sphereIndices R C := by
  rw [torusIndices_eq_strip, sphereIndices_eq_strip]

/-- Witness of C11 at `R = 4`, `C = 2`. -/
theorem torusIndices_eq_sphereIndices_witness :
    (1 ≤ 4 ∧ 1 ≤ 2) ∧ torusIndices 4 2 = sphereIndices 4 2 :=
  ⟨by decide, torusIndices_eq_sphereIndices 4 2 (by decide) (by decide)⟩

/-- C12. For every quad input with non-zero UV determinants the array
`wallVertices` is exactly 6 vertices of 14 floats, read with the five
attributes of lines 584-593 (position at offset 0, normal at 3, UV at 6,
tangent at 8, bitangent at 11, stride 14). The positions and UVs are those of
`p1,p2,p3,p1,p3,p4`; all 6 vertices carry the supplied normal; the first three
carry the tangent and bitangent computed from triangle `(p1,p2,p3)` and the
last three those computed from triangle `(p1,p3,p4)`. -/
theorem wallVertices_layout {α : Type} [Field α] (M : Math α) (q : Quad α)
    (_hdet1 : uvDet (q.uv2.sub q.uv1) (q.uv3.sub q.uv1) ≠ 0)
    (_hdet2 : uvDet (q.uv3.sub q.uv1) (q.uv4.sub q.uv1) ≠ 0) :
    (wallVertices M q).length = 6 * 14 ∧
    (List.range 6).map (fun v => readAttrib (wallVertices M q) 14 0 3 v)
      = [q.pos1, q.pos2, q.pos3, q.pos1, q.pos3, q.pos4].map (fun p => [p.x, p.y, p.z]) ∧
    (List.range 6).map (fun v => readAttrib (wallVertices M q) 14 3 3 v)
      = List.replicate 6 [q.nm.x, q.nm.y, q.nm.z] ∧
    (List.range 6).map (fun v => readAttrib (wallVertices M q) 14 6 2 v)
      = [q.uv1, q.uv2, q.uv3, q.uv1, q.uv3, q.uv4].map (fun t => [t.x, t.y]) ∧
    (List.range 6).map (fun v => readAttrib (wallVertices M q) 14 8 3 v)
      = (List.replicate 3
            (tangentOf M (q.pos2.sub q.pos1) (q.pos3.sub q.pos1)
              (q.uv2.sub q.uv1) (q.uv3.sub q.uv1)) ++
          List.replicate 3
            (tangentOf M (q.pos3.sub q.pos1) (q.pos4.sub q.pos1)
              (q.uv3.sub q.uv1) (q.uv4.sub q.uv1))).map (fun p => [p.x, p.y, p.z]) ∧
    (List.range 6).map (fun v => readAttrib (wallVertices M q) 14 11 3 v)
      = (List.replicate 3
            (bitangentOf M (q.pos2.sub q.pos1) (q.pos3.sub q.pos1)
              (q.uv2.sub q.uv1) (q.uv3.sub q.uv1)) ++
          List.replicate 3
            (bitangentOf M (q.pos3.sub q.pos1) (q.pos4.sub q.pos1)
              (q.uv3.sub q.uv1) (q.uv4.sub q.uv1))).map (fun p => [p.x, p.y, p.z]) := by
  refine ⟨?_, ?_, ?_, ?_, ?_, ?_⟩
  · simp [wallVertices, wallRow]
  all_goals rfl

/-- Witness of C12 on the values hard-coded in `renderWall`, over the
rationals with the rational square root. -/
theorem wallVertices_layout_witness :
    (uvDet ((@wallQuad ℚ _).uv2.sub (@wallQuad ℚ _).uv1)
        ((@wallQuad ℚ _).uv3.sub (@wallQuad ℚ _).uv1) ≠ 0 ∧
      uvDet ((@wallQuad ℚ _).uv3.sub (@wallQuad ℚ _).uv1)
        ((@wallQuad ℚ _).uv4.sub (@wallQuad ℚ _).uv1) ≠ 0) ∧
    (wallVertices (⟨id, id, Rat.sqrt⟩ : Math ℚ) wallQuad).length = 6 * 14 ∧
    (List.range 6).map
        (fun v => readAttrib (wallVertices (⟨id, id, Rat.sqrt⟩ : Math ℚ) wallQuad) 14 0 3 v)
      = [(@wallQuad ℚ _).pos1, (@wallQuad ℚ _).pos2, (@wallQuad ℚ _).pos3,
         (@wallQuad ℚ _).pos1, (@wallQuad ℚ _).pos3, (@wallQuad ℚ _).pos4].map
          (fun p => [p.x, p.y, p.z]) ∧
    (List.range 6).map
        (fun v => readAttrib (wallVertices (⟨id, id, Rat.sqrt⟩ : Math ℚ) wallQuad) 14 3 3 v)
      = List.replicate 6 [(@wallQuad ℚ _).nm.x, (@wallQuad ℚ _).nm.y, (@wallQuad ℚ _).nm.z] ∧
    (List.range 6).map
        (fun v => readAttrib (wallVertices (⟨id, id, Rat.sqrt⟩ : Math ℚ) wallQuad) 14 6 2 v)
      = [(@wallQuad ℚ _).uv1, (@wallQuad ℚ _).uv2, (@wallQuad ℚ _).uv3,
         (@wallQuad ℚ _).uv1, (@wallQuad ℚ _).uv3, (@wallQuad ℚ _).uv4].map
          (fun t => [t.x, t.y]) ∧
    (List.range 6).map
        (fun v => readAttrib (wallVertices (⟨id, id, Rat.sqrt⟩ : Math ℚ) wallQuad) 14 8 3 v)
      = (List.replicate 3
            (tangentOf (⟨id, id, Rat.sqrt⟩ : Math ℚ)
              ((@wallQuad ℚ _).pos2.sub (@wallQuad ℚ _).pos1)
              ((@wallQuad ℚ _).pos3.sub (@wallQuad ℚ _).pos1)
              ((@wallQuad ℚ _).uv2.sub (@wallQuad ℚ _).uv1)
              ((@wallQuad ℚ _).uv3.sub (@wallQuad ℚ _).uv1)) ++
          List.replicate 3
            (tangentOf (⟨id, id, Rat.sqrt⟩ : Math ℚ)
              ((@wallQuad ℚ _).pos3.sub (@wallQuad ℚ _).pos1)
              ((@wallQuad ℚ _).pos4.sub (@wallQuad ℚ _).pos1)
              ((@wallQuad ℚ _).uv3.sub (@wallQuad ℚ _).uv1)
              ((@wallQuad ℚ _).uv4.sub (@wallQuad ℚ _).uv1))).map (fun p => [p.x, p.y, p.z]) ∧
    (List.range 6).map
        (fun v => readAttrib (wallVertices (⟨id, id, Rat.sqrt⟩ : Math ℚ) wallQuad) 14 11 3 v)
      = (List.replicate 3
            (bitangentOf (⟨id, id, Rat.sqrt⟩ : Math ℚ)
              ((@wallQuad ℚ _).pos2.sub (@wallQuad ℚ _).pos1)
              ((@wallQuad ℚ _).pos3.sub (@wallQuad ℚ _).pos1)
              ((@wallQuad ℚ _).uv2.sub (@wallQuad ℚ _).uv1)
              ((@wallQuad ℚ _).uv3.sub (@wallQuad ℚ _).uv1)) ++
          List.replicate 3
            (bitangentOf (⟨id, id, Rat.sqrt⟩ : Math ℚ)
              ((@wallQuad ℚ _).pos3.sub (@wallQuad ℚ _).pos1)
              ((@wallQuad ℚ _).pos4.sub (@wallQuad ℚ _).pos1)
              ((@wallQuad ℚ _).uv3.sub (@wallQuad ℚ _).uv1)
              ((@wallQuad ℚ _).uv4.sub (@wallQuad ℚ _).uv1))).map (fun p => [p.x, p.y, p.z]) :=
  ⟨⟨by norm_num [uvDet, wallQuad, Vec2.sub], by norm_num [uvDet, wallQuad, Vec2.sub]⟩,
    wallVertices_layout (⟨id, id, Rat.sqrt⟩ : Math ℚ) wallQuad
      (by norm_num [uvDet, wallQuad, Vec2.sub]) (by norm_num [uvDet, wallQuad, Vec2.sub])⟩

/-- C13. Determinism: for every `X ≥ 1`, `Y ≥ 1`, two calls of `renderSphere`
with the same `(X,Y)` hand the same vertex buffer, index buffer and count to
the draw call, element for element: both when the two calls start from two
states whose handle is still 0 (whatever else these states hold, whatever
names the vertex arrays get), and when the second call follows the first. -/
theorem renderSphere_deterministic {α : Type} [Field α] (M : Math α) (PI TAU : α)
    (X Y : Nat) (_hX : 1 ≤ X) (_hY : 1 ≤ Y) (vao1 vao2 : Nat) (st1 st2 : SphereState α)
    (h1 : st1.sphereVAO = 0) (h2 : st2.sphereVAO = 0) :
    (renderSphere M PI TAU vao1 X Y st1).2 = (renderSphere M PI TAU vao2 X Y st2).2 ∧
    (renderSphere M PI TAU vao2 X Y (renderSphere M PI TAU vao1 X Y st1).1).2
      = (renderSphere M PI TAU vao1 X Y st1).2 ∧
    (renderSphere M PI TAU vao1 X Y st1).2.arrayBuffer
      = interleave (sphereAttribs M PI TAU X Y) ∧
    (renderSphere M PI TAU vao1 X Y st1).2.elementBuffer = sphereIndices X Y := by
  refine ⟨?_, ?_, ?_, ?_⟩
  · simp [renderSphere, h1, h2]
  · by_cases hv : vao1 = 0
    · simp [renderSphere, h1, hv]
    · simp [renderSphere, h1, hv]
  · simp [renderSphere, h1]
  · simp [renderSphere, h1]

/-- Witness of C13 at `X = Y = 4`, from the initial globals, over the
rationals. -/
theorem renderSphere_deterministic_witness :
    (1 ≤ 4 ∧ 1 ≤ 4) ∧
    (renderSphere (⟨id, id, id⟩ : Math ℚ) 3 6 1 4 4 SphereState.initial).2
      = (renderSphere (⟨id, id, id⟩ : Math ℚ) 3 6 2 4 4 SphereState.initial).2 ∧
    (renderSphere (⟨id, id, id⟩ : Math ℚ) 3 6 2 4 4
        (renderSphere (⟨id, id, id⟩ : Math ℚ) 3 6 1 4 4 SphereState.initial).1).2
      = (renderSphere (⟨id, id, id⟩ : Math ℚ) 3 6 1 4 4 SphereState.initial).2 ∧
    (renderSphere (⟨id, id, id⟩ : Math ℚ) 3 6 1 4 4 SphereState.initial).2.arrayBuffer
      = interleave (sphereAttribs (⟨id, id, id⟩ : Math ℚ) 3 6 4 4) ∧
    (renderSphere (⟨id, id, id⟩ : Math ℚ) 3 6 1 4 4 SphereState.initial).2.elementBuffer
      = sphereIndices 4 4 :=
  ⟨by decide, renderSphere_deterministic (⟨id, id, id⟩ : Math ℚ) 3 6 4 4 (by decide) (by decide)
    1 2 SphereState.initial SphereState.initial rfl rfl⟩

/-! ## Claims C17, C18 -/

/-- C17. From the initial globals `renderTorus` issues a non-indexed strip,
`glDrawArrays(GL_TRIANGLE_STRIP, 0, torusIndexCount)`, with
`torusIndexCount = 2*C*(R+1)` over a vertex buffer of `2*(R+1)*(C+1)` vertices
(8 floats each). For every `R ≥ 1`, `C ≥ 1` the count is at most the number
of vertices, and it reaches the `2*R*(C+1)` vertices of the ring bands
`i = 0..R-1` if and only if `C ≥ R`; with the defaults `R = 64`, `C = 32` the
count is 4160, short of 4224. -/
theorem torus_draw_range {α : Type} [Field α] (M : Math α) (TAU r c : α) (vao R C : Nat)
    (hR : 1 ≤ R) (_hC : 1 ≤ C) :
    ∃ st draw, renderTorus M TAU vao r c R C TorusState.initial = some (st, draw) ∧
      draw.first = 0 ∧
      draw.count = 2 * C * (R + 1) ∧
      draw.arrayBuffer.length = 8 * (2 * (R + 1) * (C + 1)) ∧
      draw.count ≤ 2 * (R + 1) * (C + 1) ∧
      (2 * R * (C + 1) ≤ draw.count ↔ R ≤ C) ∧
      (R = 64 → C = 32 → draw.count = 4160 ∧ 2 * R * (C + 1) = 4224) := by
  have hR0 : R ≠ 0 := by omega
  have e1 : 2 * C * (R + 1) = 2 * (R * C) + 2 * C := by ring
  have e2 : 2 * (R + 1) * (C + 1) = 2 * (R * C) + 2 * R + 2 * C + 2 := by ring
  have e3 : 2 * R * (C + 1) = 2 * (R * C) + 2 * R := by ring
  refine ⟨_, _, renderTorus_first M TAU vao r c R C hR0, rfl, torusIndices_length R C, ?_,
    ?_, ?_, ?_⟩
  · show (interleave (torusAttribs M TAU r c R C)).length = _
    rw [interleave_length _ (torusAttribs_aligned M TAU r c R C),
      torusAttribs_positions_length]
  · show (torusIndices R C).length ≤ _
    rw [torusIndices_length, e1, e2]
    omega
  · show 2 * R * (C + 1) ≤ (torusIndices R C).length ↔ R ≤ C
    rw [torusIndices_length, e1, e3]
    omega
  · intro h64 h32
    show (torusIndices R C).length = 4160 ∧ _
    rw [torusIndices_length, h64, h32]
    exact ⟨rfl, rfl⟩

/-- Witness of C17 at the defaults `r = 0.2`, `c = 0.45`, `R = 64`, `C = 32`. -/
theorem torus_draw_range_witness :
    (1 ≤ 64 ∧ 1 ≤ 32) ∧
    ∃ st draw, renderTorus (⟨id, id, id⟩ : Math ℚ) 6 1 (2 / 10) (45 / 100) 64 32
        TorusState.initial = some (st, draw) ∧
      draw.first = 0 ∧
      draw.count = 2 * 32 * (64 + 1) ∧
      draw.arrayBuffer.length = 8 * (2 * (64 + 1) * (32 + 1)) ∧
      draw.count ≤ 2 * (64 + 1) * (32 + 1) ∧
      (2 * 64 * (32 + 1) ≤ draw.count ↔ 64 ≤ 32) ∧
      (64 = 64 → 32 = 32 → draw.count = 4160 ∧ 2 * 64 * (32 + 1) = 4224) :=
  ⟨by decide, torus_draw_range (⟨id, id, id⟩ : Math ℚ) 6 (2 / 10) (45 / 100) 1 64 32
    (by decide) (by decide)⟩

theorem processInputShadows_press_fresh (b : Bool) :
    processInputShadows KeyStatus.PRESS { shadows := b, shadowsKeyPressed := false }
      = { shadows := !b, shadowsKeyPressed := true } := by
  cases b <;> rfl

theorem processInputShadows_press_held (b : Bool) :
    processInputShadows KeyStatus.PRESS { shadows := b, shadowsKeyPressed := true }
      = { shadows := b, shadowsKeyPressed := true } := by
  cases b <;> rfl

theorem runShadows_held (b : Bool) (m : Nat) :
    runShadows (List.replicate m KeyStatus.PRESS) { shadows := b, shadowsKeyPressed := true }
      = { shadows := b, shadowsKeyPressed := true } := by
  induction m with
  | zero => rfl
  | succ m ih =>
    rw [List.replicate_succ, runShadows, List.foldl_cons, processInputShadows_press_held]
    exact ih

/-- C18. The shadow toggle is edge-triggered. From a state with
`shadowsKeyPressed = false`, during a run of `n ≥ 1` consecutive frames with H
pressed, after each of its frames `m = 1, ..., n` the flag `shadows` is the
negation of its value before the run (negated on the first frame, unchanged on
the other `n-1`) and `shadowsKeyPressed` is true. A frame with H released
never changes `shadows` and sets `shadowsKeyPressed` to false. -/
theorem shadows_edge_triggered (st : ShadowState) (n : Nat)
    (hst : st.shadowsKeyPressed = false) (_hn : 1 ≤ n) :
    (∀ m, 1 ≤ m → m ≤ n →
      runShadows (List.replicate m KeyStatus.PRESS) st
        = { shadows := !st.shadows, shadowsKeyPressed := true }) ∧
    (∀ s : ShadowState, processInputShadows KeyStatus.RELEASE s
        = { shadows := s.shadows, shadowsKeyPressed := false }) := by
  constructor
  · intro m hm _
    obtain ⟨k, rfl⟩ : ∃ k, m = k + 1 := ⟨m - 1, by omega⟩
    obtain ⟨b, p⟩ := st
    simp only at hst
    subst hst
    rw [List.replicate_succ, runShadows, List.foldl_cons, processInputShadows_press_fresh]
    exact runShadows_held (!b) k
  · intro s
    obtain ⟨b, p⟩ := s
    cases b <;> cases p <;> rfl

/-- Witness of C18: three frames with H pressed from the initial globals. -/
theorem shadows_edge_triggered_witness :
    (ShadowState.initial.shadowsKeyPressed = false ∧ 1 ≤ 3) ∧
    (∀ m, 1 ≤ m → m ≤ 3 →
      runShadows (List.replicate m KeyStatus.PRESS) ShadowState.initial
        = { shadows := !ShadowState.initial.shadows, shadowsKeyPressed := true }) ∧
    (∀ s : ShadowState, processInputShadows KeyStatus.RELEASE s
        = { shadows := s.shadows, shadowsKeyPressed := false }) :=
  ⟨⟨rfl, by decide⟩, shadows_edge_triggered ShadowState.initial 3 rfl (by decide)⟩

/-! ## Places in a sequence of equal blocks -/

theorem flatMap_range_length {β : Type} (F : Nat → List β) (L : Nat)
    (hL : ∀ y, (F y).length = L) (m : Nat) :
    ((List.range m).flatMap F).length = L * m := by
  induction m with
  | zero => simp
  | succ m ih =>
    rw [List.range_succ, List.flatMap_append, List.length_append, ih]
    simp [hL]
    ring

/-- In a sequence of blocks of equal length `L`, place `L * y + k` is place
`k` of block `y`. -/
theorem flatMap_range_getElem? {β : Type} (F : Nat → List β) (L : Nat)
    (hL : ∀ y, (F y).length = L) (m y k : Nat) (hy : y < m) (hk : k < L) :
    ((List.range m).flatMap F)[L * y + k]? = (F y)[k]? := by
  induction m with
  | zero => omega
  | succ m ih =>
    rw [List.range_succ, List.flatMap_append]
    have hlen := flatMap_range_length F L hL m
    rcases Nat.lt_succ_iff_lt_or_eq.mp hy with hlt | heq
    · have hb : L * y + k < ((List.range m).flatMap F).length := by
        rw [hlen]
        have : L * (y + 1) ≤ L * m := Nat.mul_le_mul_left L hlt
        have e : L * (y + 1) = L * y + L := by ring
        omega
      rw [List.getElem?_append_left hb]
      exact ih hlt
    · subst heq
      have hb : ((List.range y).flatMap F).length ≤ L * y + k := by
        rw [hlen]
        omega
      rw [List.getElem?_append_right hb, hlen]
      simp

theorem reverse_range_flatMap {β : Type} (h : Nat → List β) (n : Nat) :
    (List.range (n + 1)).reverse.flatMap h = (List.range (n + 1)).flatMap (fun x => h (n - x)) := by
  rw [List.range_eq_range', List.reverse_range', List.flatMap_map, ← List.range_eq_range']
  congr 1
  funext x
  congr 1
  omega

theorem pairs_length (a b : Nat → Nat) (N : Nat) :
    ((List.range N).flatMap (fun x => [a x, b x])).length = 2 * N :=
  flatMap_range_length (fun x => [a x, b x]) 2 (fun _ => rfl) N

/-- Place `k` of a sequence of pairs: the first or second entry of pair
`k / 2`. -/
theorem pairs_getElem? (a b : Nat → Nat) (N k : Nat) (hk : k < 2 * N) :
    ((List.range N).flatMap (fun x => [a x, b x]))[k]?
      = some (if k % 2 = 0 then a (k / 2) else b (k / 2)) := by
  have hk2 : k = 2 * (k / 2) + k % 2 := (Nat.div_add_mod k 2).symm
  have hx : k / 2 < N := by omega
  have he : k % 2 < 2 := Nat.mod_lt _ (by decide)
  conv_lhs => rw [hk2]
  rw [flatMap_range_getElem? (fun x => [a x, b x]) 2 (fun _ => rfl) N (k / 2) (k % 2) hx he]
  rcases Nat.mod_two_eq_zero_or_one k with h | h <;> simp [h]

theorem stripRow_length (n y : Nat) : (stripRow n y).length = 2 * (n + 1) := by
  unfold stripRow
  split
  · exact pairs_length _ _ _
  · rw [reverse_range_flatMap]
    exact pairs_length (fun x => (y + 1) * (n + 1) + (n - x)) (fun x => y * (n + 1) + (n - x)) _

/-- The value at each place of a row. -/
theorem stripRow_getElem? (n y k : Nat) (hk : k < 2 * (n + 1)) :
    (stripRow n y)[k]? = some (stripRowAt n y k) := by
  unfold stripRow stripRowAt
  by_cases hy : y % 2 = 0
  · rw [if_pos hy, if_pos hy]
    exact pairs_getElem? (fun x => y * (n + 1) + x) (fun x => (y + 1) * (n + 1) + x) _ k hk
  · rw [if_neg hy, if_neg hy, reverse_range_flatMap]
    exact pairs_getElem? (fun x => (y + 1) * (n + 1) + (n - x))
      (fun x => y * (n + 1) + (n - x)) _ k hk

/-- The value at each place of the strip: place `2*(n+1)*y + k` holds place
`k` of row `y`. -/
theorem stripIndices_getElem? (n m y k : Nat) (hy : y < m) (hk : k < 2 * (n + 1)) :
    (stripIndices n m)[2 * (n + 1) * y + k]? = some (stripRowAt n y k) := by
  unfold stripIndices
  rw [flatMap_range_getElem? (stripRow n) (2 * (n + 1)) (stripRow_length n) m y k hy hk]
  exact stripRow_getElem? n y k hk

/-- Row and column of the grid vertex stored at `y * (n + 1) + x`. -/
theorem grid_div_mod (n y x : Nat) (hx : x ≤ n) :
    (y * (n + 1) + x) / (n + 1) = y ∧ (y * (n + 1) + x) % (n + 1) = x := by
  have hpos : 0 < n + 1 := Nat.succ_pos n
  have hlt : x < n + 1 := Nat.lt_succ_of_le hx
  constructor
  · rw [Nat.add_comm, Nat.add_mul_div_right _ _ hpos, Nat.div_eq_of_lt hlt, Nat.zero_add]
  · rw [Nat.add_comm, Nat.add_mul_mod_self_right, Nat.mod_eq_of_lt hlt]

/-- Every value of row `y` is a grid vertex: its row is `y` or `y + 1`
according to the parity of `k + y`, its column is `k / 2` on an even row and
`n - k / 2` on an odd row. -/
theorem stripRowAt_grid (n y k : Nat) (hk : k < 2 * (n + 1)) :
    (stripRowAt n y k) / (n + 1) = y + (k + y) % 2 ∧
    (stripRowAt n y k) % (n + 1) = (if y % 2 = 0 then k / 2 else n - k / 2) := by
  have hx : k / 2 ≤ n := by omega
  have hx2 : n - k / 2 ≤ n := Nat.sub_le _ _
  unfold stripRowAt
  by_cases hy : y % 2 = 0 <;> by_cases hke : k % 2 = 0
  · simp only [if_pos hy, if_pos hke]
    obtain ⟨h1, h2⟩ := grid_div_mod n y (k / 2) hx
    exact ⟨by rw [h1]; omega, h2⟩
  · simp only [if_pos hy, if_neg hke]
    obtain ⟨h1, h2⟩ := grid_div_mod n (y + 1) (k / 2) hx
    exact ⟨by rw [h1]; omega, h2⟩
  · simp only [if_neg hy, if_pos hke]
    obtain ⟨h1, h2⟩ := grid_div_mod n (y + 1) (n - k / 2) hx2
    exact ⟨by rw [h1]; omega, h2⟩
  · simp only [if_neg hy, if_neg hke]
    obtain ⟨h1, h2⟩ := grid_div_mod n y (n - k / 2) hx2
    exact ⟨by rw [h1]; omega, h2⟩

/-- The index at place `2*(xSeg+1)*y + k` of the sphere's index sequence. -/
theorem sphereIndices_getElem? (xSeg ySeg y k : Nat) (hy : y < ySeg)
    (hk : k < 2 * (xSeg + 1)) :
    (sphereIndices xSeg ySeg)[2 * (xSeg + 1) * y + k]? = some (stripRowAt xSeg y k) := by
  rw [sphereIndices_eq_strip]
  exact stripIndices_getElem? xSeg ySeg y k hy hk

/-! ## Claims C14, C15 -/

/-- C14. For every `X ≥ 1`, `Y ≥ 1` and every row `y < Y`, any three
consecutive places `k, k+1, k+2` inside the block of `2*(X+1)` indices of row
`y` (which starts at place `2*(X+1)*y`) hold three pairwise distinct values;
each is a grid vertex of row `y` or row `y+1` (the vertex `(x,y)` being stored
at `y*(X+1)+x`), and their grid columns differ by at most 1. -/
theorem sphere_row_triangles (X Y y k : Nat) (_hX : 1 ≤ X) (_hY : 1 ≤ Y) (hy : y < Y)
    (hk : k + 2 < 2 * (X + 1)) :
    ∃ a b c,
      (sphereIndices X Y)[2 * (X + 1) * y + k]? = some a ∧
      (sphereIndices X Y)[2 * (X + 1) * y + (k + 1)]? = some b ∧
      (sphereIndices X Y)[2 * (X + 1) * y + (k + 2)]? = some c ∧
      (a ≠ b ∧ b ≠ c ∧ a ≠ c) ∧
      (∀ v ∈ [a, b, c], v / (X + 1) = y ∨ v / (X + 1) = y + 1) ∧
      (∀ v ∈ [a, b, c], ∀ w ∈ [a, b, c], v % (X + 1) ≤ w % (X + 1) + 1) := by
  refine ⟨stripRowAt X y k, stripRowAt X y (k + 1), stripRowAt X y (k + 2),
    sphereIndices_getElem? X Y y k hy (by omega),
    sphereIndices_getElem? X Y y (k + 1) hy (by omega),
    sphereIndices_getElem? X Y y (k + 2) hy hk, ?_, ?_, ?_⟩
  all_goals
    obtain ⟨ra, ca⟩ := stripRowAt_grid X y k (by omega)
    obtain ⟨rb, cb⟩ := stripRowAt_grid X y (k + 1) (by omega)
    obtain ⟨rc, cc⟩ := stripRowAt_grid X y (k + 2) hk
    generalize stripRowAt X y k = a at ra ca ⊢
    generalize stripRowAt X y (k + 1) = b at rb cb ⊢
    generalize stripRowAt X y (k + 2) = c at rc cc ⊢
  · refine ⟨?_, ?_, ?_⟩
    · intro h
      rw [h] at ra
      omega
    · intro h
      rw [h] at rb
      omega
    · intro h
      rw [h] at ca
      split at ca <;> split at cc <;> omega
  · intro v hv
    simp only [List.mem_cons, List.mem_singleton, List.not_mem_nil, or_false] at hv
    rcases hv with rfl | rfl | rfl <;> omega
  · intro v hv w hw
    simp only [List.mem_cons, List.mem_singleton, List.not_mem_nil, or_false] at hv hw
    split at ca <;> split at cb <;> split at cc <;>
      rcases hv with rfl | rfl | rfl <;> rcases hw with rfl | rfl | rfl <;> omega

/-- Witness of C14 at `X = 2`, `Y = 3`, row `y = 1`, places `k = 3, 4, 5`. -/
theorem sphere_row_triangles_witness :
    (1 ≤ 2 ∧ 1 ≤ 3 ∧ 1 < 3 ∧ 3 + 2 < 2 * (2 + 1)) ∧
    ∃ a b c,
      (sphereIndices 2 3)[2 * (2 + 1) * 1 + 3]? = some a ∧
      (sphereIndices 2 3)[2 * (2 + 1) * 1 + (3 + 1)]? = some b ∧
      (sphereIndices 2 3)[2 * (2 + 1) * 1 + (3 + 2)]? = some c ∧
      (a ≠ b ∧ b ≠ c ∧ a ≠ c) ∧
      (∀ v ∈ [a, b, c], v / (2 + 1) = 1 ∨ v / (2 + 1) = 1 + 1) ∧
      (∀ v ∈ [a, b, c], ∀ w ∈ [a, b, c], v % (2 + 1) ≤ w % (2 + 1) + 1) :=
  ⟨by decide, sphere_row_triangles 2 3 1 3 (by decide) (by decide) (by decide) (by decide)⟩

/-- C15. For every `X ≥ 1`, `Y ≥ 2` and every row junction `y < Y - 1`, with
`p = 2*(X+1)*(y+1)` the first place of row `y+1`: when `y` is even the places
`p-1` and `p+1` hold the same index, `(y+1)*(X+1)+X`; when `y` is odd the
places `p-2` and `p` hold the same index, `(y+1)*(X+1)`. -/
theorem sphere_junction_repeats (X Y y : Nat) (_hX : 1 ≤ X) (_hY : 2 ≤ Y) (hy : y < Y - 1) :
    (y % 2 = 0 →
      (sphereIndices X Y)[2 * (X + 1) * (y + 1) - 1]? = some ((y + 1) * (X + 1) + X) ∧
      (sphereIndices X Y)[2 * (X + 1) * (y + 1) + 1]? = some ((y + 1) * (X + 1) + X)) ∧
    (y % 2 = 1 →
      (sphereIndices X Y)[2 * (X + 1) * (y + 1) - 2]? = some ((y + 1) * (X + 1)) ∧
      (sphereIndices X Y)[2 * (X + 1) * (y + 1)]? = some ((y + 1) * (X + 1))) := by
  have e : 2 * (X + 1) * (y + 1) = 2 * (X + 1) * y + 2 * (X + 1) := by ring
  have p1 : 2 * (X + 1) * (y + 1) - 1 = 2 * (X + 1) * y + (2 * X + 1) := by omega
  have p2 : 2 * (X + 1) * (y + 1) - 2 = 2 * (X + 1) * y + 2 * X := by omega
  have hlo : y < Y := by omega
  have hhi : y + 1 < Y := by omega
  constructor
  · intro hev
    have hodd : (y + 1) % 2 ≠ 0 := by omega
    constructor
    · rw [p1, sphereIndices_getElem? X Y y (2 * X + 1) hlo (by omega)]
      have h1 : (2 * X + 1) % 2 ≠ 0 := by omega
      have h2 : (2 * X + 1) / 2 = X := by omega
      simp only [stripRowAt, if_pos hev, if_neg h1, h2]
    · rw [sphereIndices_getElem? X Y (y + 1) 1 hhi (by omega)]
      simp only [stripRowAt, if_neg hodd]
      simp
  · intro hod
    have hne : y % 2 ≠ 0 := by omega
    have hev : (y + 1) % 2 = 0 := by omega
    constructor
    · rw [p2, sphereIndices_getElem? X Y y (2 * X) hlo (by omega)]
      have h1 : (2 * X) % 2 = 0 := by omega
      have h2 : (2 * X) / 2 = X := by omega
      simp only [stripRowAt, if_neg hne, if_pos h1, h2]
      simp
    · have := sphereIndices_getElem? X Y (y + 1) 0 hhi (by omega)
      rw [Nat.add_zero] at this
      rw [this]
      simp only [stripRowAt, if_pos hev]
      simp

/-- Witness of C15 at `X = 2`, `Y = 3` and the junction `y = 1`. -/
theorem sphere_junction_repeats_witness :
    (1 ≤ 2 ∧ 2 ≤ 3 ∧ 1 < 3 - 1) ∧
    (1 % 2 = 0 →
      (sphereIndices 2 3)[2 * (2 + 1) * (1 + 1) - 1]? = some ((1 + 1) * (2 + 1) + 2) ∧
      (sphereIndices 2 3)[2 * (2 + 1) * (1 + 1) + 1]? = some ((1 + 1) * (2 + 1) + 2)) ∧
    (1 % 2 = 1 →
      (sphereIndices 2 3)[2 * (2 + 1) * (1 + 1) - 2]? = some ((1 + 1) * (2 + 1)) ∧
      (sphereIndices 2 3)[2 * (2 + 1) * (1 + 1)]? = some ((1 + 1) * (2 + 1))) :=
  ⟨by decide, sphere_junction_repeats 2 3 1 (by decide) (by decide) (by decide)⟩

/-! ## The torus vertex loops in closed form -/

/-- A fold whose every step appends `F i` to a component of the state appends,
in all, the blocks `F i` in order. -/
theorem foldl_proj_flatMap {σ ι β : Type} (proj : σ → List β) (f : σ → ι → σ)
    (F : ι → List β) (h : ∀ s i, proj (f s i) = proj s ++ F i) (l : List ι) (s : σ) :
    proj (l.foldl f s) = proj s ++ l.flatMap F := by
  induction l generalizing s with
  | nil => simp
  | cons a l ih =>
    rw [List.foldl_cons, ih, h, List.flatMap_cons, List.append_assoc]

/-- The blocks of the three nested loops `i ≤ R`, `j ≤ C`, `k < 2`. -/
theorem nested_loops_proj {σ β : Type} (proj : σ → List β) (body : Nat → Nat → Nat → σ → σ)
    (f : Nat → Nat → Nat → β) (h : ∀ i j k s, proj (body i j k s) = proj s ++ [f i j k])
    (R C : Nat) (s : σ) :
    proj (forUpTo R (fun i a => forUpTo C (fun j a => forBelow 2 (fun k a => body i j k a) a) a) s)
      = proj s ++ (List.range (R + 1)).flatMap (fun i =>
          (List.range (C + 1)).flatMap (fun j => (List.range 2).flatMap (fun k => [f i j k]))) := by
  unfold forUpTo
  refine foldl_proj_flatMap proj _ _ ?_ _ s
  intro s i
  refine foldl_proj_flatMap proj _ _ ?_ _ s
  intro s j
  unfold forBelow
  exact foldl_proj_flatMap proj _ _ (fun s k => h i j k s) _ s

/-- The entry of the nested blocks for `(i, j, k)` sits at place
`2 * (i * (C + 1) + j) + k`. -/
theorem nested_getElem? {β : Type} (f : Nat → Nat → Nat → β) (R C i j k : Nat)
    (hi : i ≤ R) (hj : j ≤ C) (hk : k < 2) :
    ((List.range (R + 1)).flatMap (fun i =>
        (List.range (C + 1)).flatMap (fun j =>
          (List.range 2).flatMap (fun k => [f i j k]))))[2 * (i * (C + 1) + j) + k]?
      = some (f i j k) := by
  have hin : ∀ i j, ((List.range 2).flatMap (fun k => [f i j k])).length = 2 := by
    intro i j
    rw [flatMap_range_length (fun k => [f i j k]) 1 (fun _ => rfl)]
  have hmid : ∀ i, ((List.range (C + 1)).flatMap (fun j =>
      (List.range 2).flatMap (fun k => [f i j k]))).length = 2 * (C + 1) :=
    fun i => flatMap_range_length _ 2 (hin i) (C + 1)
  have epos : 2 * (i * (C + 1) + j) + k = 2 * (C + 1) * i + (2 * j + k) := by ring
  rw [epos, flatMap_range_getElem? (fun i => (List.range (C + 1)).flatMap (fun j =>
      (List.range 2).flatMap (fun k => [f i j k]))) (2 * (C + 1)) hmid (R + 1) i (2 * j + k)
      (by omega) (by omega),
    flatMap_range_getElem? (fun j => (List.range 2).flatMap (fun k => [f i j k])) 2 (hin i)
      (C + 1) j k (by omega) hk]
  interval_cases k <;> rfl

theorem torusEmplace_eq {α : Type} [Field α] (M : Math α) (TAU r c : α) (rSeg cSeg i j k : Nat)
    (a : Attribs α) :
    torusEmplace M TAU r c rSeg cSeg i j k a
      = a.emplace (torusPos M TAU r c rSeg cSeg i j k) (torusPos M TAU r c rSeg cSeg i j k)
          (torusTex rSeg cSeg i j k) := rfl

/-- The position, normal and texture coordinate that the vertex loops of
`renderTorus` store for `(i, j, k)`, at place `2 * (i * (cSeg + 1) + j) + k`. -/
theorem torusAttribs_getElem? {α : Type} [Field α] (M : Math α) (TAU r c : α)
    (rSeg cSeg i j k : Nat) (hi : i ≤ rSeg) (hj : j ≤ cSeg) (hk : k < 2) :
    (torusAttribs M TAU r c rSeg cSeg).positions[2 * (i * (cSeg + 1) + j) + k]?
        = some (torusPos M TAU r c rSeg cSeg i j k) ∧
    (torusAttribs M TAU r c rSeg cSeg).normals[2 * (i * (cSeg + 1) + j) + k]?
        = some (torusPos M TAU r c rSeg cSeg i j k) ∧
    (torusAttribs M TAU r c rSeg cSeg).uv[2 * (i * (cSeg + 1) + j) + k]?
        = some (torusTex rSeg cSeg i j k) := by
  unfold torusAttribs
  refine ⟨?_, ?_, ?_⟩
  · rw [nested_loops_proj (fun a : Attribs α => a.positions)
      (fun i j k a => torusEmplace M TAU r c rSeg cSeg i j k a)
      (fun i j k => torusPos M TAU r c rSeg cSeg i j k)
      (fun i j k a => congrArg Attribs.positions (torusEmplace_eq M TAU r c rSeg cSeg i j k a))]
    simpa [Attribs.empty] using nested_getElem? _ rSeg cSeg i j k hi hj hk
  · rw [nested_loops_proj (fun a : Attribs α => a.normals)
      (fun i j k a => torusEmplace M TAU r c rSeg cSeg i j k a)
      (fun i j k => torusPos M TAU r c rSeg cSeg i j k)
      (fun i j k a => congrArg Attribs.normals (torusEmplace_eq M TAU r c rSeg cSeg i j k a))]
    simpa [Attribs.empty] using nested_getElem? _ rSeg cSeg i j k hi hj hk
  · rw [nested_loops_proj (fun a : Attribs α => a.uv)
      (fun i j k a => torusEmplace M TAU r c rSeg cSeg i j k a)
      (fun i j k => torusTex rSeg cSeg i j k)
      (fun i j k a => congrArg Attribs.uv (torusEmplace_eq M TAU r c rSeg cSeg i j k a))]
    simpa [Attribs.empty] using nested_getElem? _ rSeg cSeg i j k hi hj hk

/-! ## Claim C16 -/

/-- C16. Torus seam duplication: for every `R ≥ 1`, `C ≥ 1`, radii `r`, `c`,
every ring index `i < R` and every `j ≤ C`, the vertex generated for
`(i, j, k=1)`, stored at `2*(i*(C+1)+j)+1`, has the same position, normal and
UV as the vertex generated for `(i+1, j, k=0)`, stored at `2*((i+1)*(C+1)+j)`;
and the vertices of ring `i = R` have the same positions as those of ring
`i = 0`. -/
theorem torus_seam_duplicates {α : Type} [Field α] (M : Math α) (TAU r c : α)
    (R C i j : Nat) (_hR : 1 ≤ R) (_hC : 1 ≤ C) (hi : i < R) (hj : j ≤ C) :
    (∃ p n t,
      (torusAttribs M TAU r c R C).positions[2 * (i * (C + 1) + j) + 1]? = some p ∧
      (torusAttribs M TAU r c R C).positions[2 * ((i + 1) * (C + 1) + j)]? = some p ∧
      (torusAttribs M TAU r c R C).normals[2 * (i * (C + 1) + j) + 1]? = some n ∧
      (torusAttribs M TAU r c R C).normals[2 * ((i + 1) * (C + 1) + j)]? = some n ∧
      (torusAttribs M TAU r c R C).uv[2 * (i * (C + 1) + j) + 1]? = some t ∧
      (torusAttribs M TAU r c R C).uv[2 * ((i + 1) * (C + 1) + j)]? = some t) ∧
    (∀ k, k < 2 → ∃ p,
      (torusAttribs M TAU r c R C).positions[2 * (R * (C + 1) + j) + k]? = some p ∧
      (torusAttribs M TAU r c R C).positions[2 * (0 * (C + 1) + j) + k]? = some p) := by
  obtain ⟨a1, a2, a3⟩ := torusAttribs_getElem? M TAU r c R C i j 1 (by omega) hj (by decide)
  obtain ⟨b1, b2, b3⟩ := torusAttribs_getElem? M TAU r c R C (i + 1) j 0 (by omega) hj
    (by decide)
  have hp : torusPos M TAU r c R C (i + 1) j 0 = torusPos M TAU r c R C i j 1 := rfl
  have ht : (torusTex R C (i + 1) j 0 : Vec2 α) = torusTex R C i j 1 := rfl
  rw [Nat.add_zero, hp] at b1 b2
  rw [Nat.add_zero, ht] at b3
  refine ⟨⟨_, _, _, a1, b1, a2, b2, a3, b3⟩, ?_⟩
  intro k hk
  obtain ⟨c1, -, -⟩ := torusAttribs_getElem? M TAU r c R C R j k (le_refl _) hj hk
  obtain ⟨d1, -, -⟩ := torusAttribs_getElem? M TAU r c R C 0 j k (by omega) hj hk
  have hring : torusPos M TAU r c R C R j k = torusPos M TAU r c R C 0 j k := by
    simp only [torusPos, Nat.add_mod_left, Nat.zero_add]
  rw [hring] at c1
  exact ⟨_, c1, d1⟩

/-- Witness of C16 at `R = 2`, `C = 1`, ring `i = 0`, `j = 1`, over the
rationals. -/
theorem torus_seam_duplicates_witness :
    (1 ≤ 2 ∧ 1 ≤ 1 ∧ 0 < 2 ∧ 1 ≤ 1) ∧
    (∃ p n t,
      (torusAttribs (⟨id, id, id⟩ : Math ℚ) 6 1 2 2 1).positions[2 * (0 * (1 + 1) + 1) + 1]?
        = some p ∧
      (torusAttribs (⟨id, id, id⟩ : Math ℚ) 6 1 2 2 1).positions[2 * ((0 + 1) * (1 + 1) + 1)]?
        = some p ∧
      (torusAttribs (⟨id, id, id⟩ : Math ℚ) 6 1 2 2 1).normals[2 * (0 * (1 + 1) + 1) + 1]?
        = some n ∧
      (torusAttribs (⟨id, id, id⟩ : Math ℚ) 6 1 2 2 1).normals[2 * ((0 + 1) * (1 + 1) + 1)]?
        = some n ∧
      (torusAttribs (⟨id, id, id⟩ : Math ℚ) 6 1 2 2 1).uv[2 * (0 * (1 + 1) + 1) + 1]?
        = some t ∧
      (torusAttribs (⟨id, id, id⟩ : Math ℚ) 6 1 2 2 1).uv[2 * ((0 + 1) * (1 + 1) + 1)]?
        = some t) ∧
    (∀ k, k < 2 → ∃ p,
      (torusAttribs (⟨id, id, id⟩ : Math ℚ) 6 1 2 2 1).positions[2 * (2 * (1 + 1) + 1) + k]?
        = some p ∧
      (torusAttribs (⟨id, id, id⟩ : Math ℚ) 6 1 2 2 1).positions[2 * (0 * (1 + 1) + 1) + k]?
        = some p) :=
  ⟨by decide, torus_seam_duplicates (⟨id, id, id⟩ : Math ℚ) 6 1 2 2 1 0 1
    (by decide) (by decide) (by decide) (by decide)⟩

/-! ## Rounding to binary32 -/

/-- What the stages keep: the pair is `(a / 2^e, e)`, and once anything is
shifted the significand has its top bit set. -/
theorem sigStage_keeps (a s : Nat) (p : Nat × Nat)
    (h : p.1 = a / 2 ^ p.2 ∧ (1 ≤ p.2 → 2 ^ 23 ≤ p.1)) :
    (sigStage s p).1 = a / 2 ^ (sigStage s p).2 ∧
      (1 ≤ (sigStage s p).2 → 2 ^ 23 ≤ (sigStage s p).1) := by
  obtain ⟨h1, h2⟩ := h
  unfold sigStage
  by_cases hc : p.1 < 2 ^ (23 + s)
  · rw [if_pos hc]
    exact ⟨h1, h2⟩
  · rw [if_neg hc]
    refine ⟨?_, fun _ => ?_⟩
    · show p.1 / 2 ^ s = a / 2 ^ (p.2 + s)
      rw [h1, Nat.div_div_eq_div_mul, pow_add]
    · show 2 ^ 23 ≤ p.1 / 2 ^ s
      rw [Nat.le_div_iff_mul_le (pow_pos (by decide) _), ← pow_add]
      exact Nat.le_of_not_lt hc

/-- A stage halves the number of bits above the 23rd that may remain. -/
theorem sigStage_bits (s : Nat) (p : Nat × Nat) (h : p.1 < 2 ^ (23 + (s + s))) :
    (sigStage s p).1 < 2 ^ (23 + s) := by
  unfold sigStage
  by_cases hc : p.1 < 2 ^ (23 + s)
  · rw [if_pos hc]
    exact hc
  · rw [if_neg hc]
    show p.1 / 2 ^ s < 2 ^ (23 + s)
    rw [Nat.div_lt_iff_lt_mul (pow_pos (by decide) _), ← pow_add, Nat.add_assoc]
    exact h

/-- Whenever `sigShift` shifts at all, the significand it leaves has its top
bit set. -/
theorem sigShift_lower (a : Nat) (h : 1 ≤ sigShift a) : 2 ^ 23 ≤ a / 2 ^ sigShift a := by
  have key := sigStage_keeps a 1 _ (sigStage_keeps a 2 _ (sigStage_keeps a 4 _
    (sigStage_keeps a 8 _ (sigStage_keeps a 16 _ (sigStage_keeps a 32 _
      (sigStage_keeps a 64 _ (sigStage_keeps a 128 (a, 0)
        ⟨by simp, fun h0 => by simp at h0⟩)))))))
  have h2 := key.2 h
  rw [key.1] at h2
  exact h2

/-- For every magnitude below `2^279 = 2^(23 + 256)` the significand `sigShift` leaves fits
24 bits. -/
theorem sigShift_upper (a : Nat) (h : a < 2 ^ (23 + (128 + 128))) : a / 2 ^ sigShift a < 2 ^ 24 := by
  have key := sigStage_keeps a 1 _ (sigStage_keeps a 2 _ (sigStage_keeps a 4 _
    (sigStage_keeps a 8 _ (sigStage_keeps a 16 _ (sigStage_keeps a 32 _
      (sigStage_keeps a 64 _ (sigStage_keeps a 128 (a, 0)
        ⟨by simp, fun h0 => by simp at h0⟩)))))))
  have bits := sigStage_bits 1 _ (sigStage_bits 2 _ (sigStage_bits 4 _
    (sigStage_bits 8 _ (sigStage_bits 16 _ (sigStage_bits 32 _
      (sigStage_bits 64 _ (sigStage_bits 128 (a, 0) h)))))))
  rw [key.1] at bits
  exact bits

/-- The rounded magnitude is a multiple of `2^e`, `e` being the shift, and
lies within half of `2^e` of the exact one. -/
theorem roundNat24_nearest (a : Nat) :
    2 ^ sigShift a ∣ roundNat24 a ∧
      2 * a ≤ 2 * roundNat24 a + 2 ^ sigShift a ∧
      2 * roundNat24 a ≤ 2 * a + 2 ^ sigShift a := by
  unfold roundNat24
  have hdm : 2 ^ sigShift a * (a / 2 ^ sigShift a) + a % 2 ^ sigShift a = a :=
    Nat.div_add_mod a _
  have hr : a % 2 ^ sigShift a < 2 ^ sigShift a := Nat.mod_lt _ (pow_pos (by decide) _)
  generalize sigShift a = e at hdm hr ⊢
  simp only
  have e1 : (a / 2 ^ e + 1) * 2 ^ e = 2 ^ e * (a / 2 ^ e) + 2 ^ e := by ring
  have e2 : a / 2 ^ e * 2 ^ e = 2 ^ e * (a / 2 ^ e) := Nat.mul_comm _ _
  split
  · rename_i hup
    refine ⟨Dvd.intro_left _ rfl, ?_, ?_⟩
    · omega
    · rcases hup with h1 | ⟨h1, -⟩ <;> omega
  · rename_i hup
    refine ⟨Dvd.intro_left _ rfl, ?_, ?_⟩
    · have hle : 2 * (a % 2 ^ e) ≤ 2 ^ e := by
        by_contra hcon
        exact hup (Or.inl (by omega))
      omega
    · omega

/-- Rounding never passes a representable magnitude: if `a ≤ R` and `R` is
representable then `roundNat24 a ≤ R`. -/
theorem roundNat24_le (a R : Nat) (hR : F32Representable R) (h : a ≤ R) :
    roundNat24 a ≤ R := by
  obtain ⟨qR, eR, hqR, rfl⟩ := hR
  unfold roundNat24
  have hdm : 2 ^ sigShift a * (a / 2 ^ sigShift a) + a % 2 ^ sigShift a = a :=
    Nat.div_add_mod a _
  have hpos : 0 < 2 ^ sigShift a := pow_pos (by decide) _
  generalize he : sigShift a = e at hdm hpos ⊢
  simp only
  split
  · rename_i hup
    have hr : 0 < a % 2 ^ e := by
      rcases hup with h1 | ⟨h1, -⟩ <;> omega
    have he1 : 1 ≤ e := by
      by_contra hcon
      have e0 : e = 0 := by omega
      rw [e0, pow_zero, Nat.mod_one] at hr
      exact absurd hr (lt_irrefl 0)
    have hq : 2 ^ 23 ≤ a / 2 ^ e := by
      have := sigShift_lower a (by omega)
      rwa [he] at this
    -- the exponent of `R` is at least `e`
    have hlt : 2 ^ (e + 23) < 2 ^ (24 + eR) := by
      calc 2 ^ (e + 23) = 2 ^ e * 2 ^ 23 := by rw [pow_add]
        _ ≤ 2 ^ e * (a / 2 ^ e) := Nat.mul_le_mul_left _ hq
        _ ≤ a := by omega
        _ ≤ qR * 2 ^ eR := h
        _ < 2 ^ 24 * 2 ^ eR := Nat.mul_lt_mul_of_pos_right hqR (pow_pos (by decide) _)
        _ = 2 ^ (24 + eR) := by rw [pow_add]
    have hle : e ≤ eR := by
      have := (Nat.pow_lt_pow_iff_right (by decide : 1 < 2)).mp hlt
      omega
    obtain ⟨d, rfl⟩ : ∃ d, eR = e + d := ⟨eR - e, by omega⟩
    have hR' : qR * 2 ^ (e + d) = (qR * 2 ^ d) * 2 ^ e := by
      rw [pow_add]
      ring
    rw [hR'] at h ⊢
    apply Nat.mul_le_mul_right
    -- `a / 2^e < qR * 2^d` because `a` lies strictly above `(a / 2^e) * 2^e`
    by_contra hcon
    have hcon : qR * 2 ^ d ≤ a / 2 ^ e := by omega
    have : qR * 2 ^ d * 2 ^ e ≤ a / 2 ^ e * 2 ^ e := Nat.mul_le_mul_right _ hcon
    have e2 : a / 2 ^ e * 2 ^ e = 2 ^ e * (a / 2 ^ e) := Nat.mul_comm _ _
    omega
  · have e2 : a / 2 ^ e * 2 ^ e = 2 ^ e * (a / 2 ^ e) := Nat.mul_comm _ _
    omega

theorem f32Round_nonneg (n : Int) (h : 0 ≤ n) : 0 ≤ f32Round n := by
  unfold f32Round
  rw [if_pos h]
  exact Int.ofNat_nonneg _

theorem f32Round_le (n : Int) (R : Nat) (hR : F32Representable R) (h0 : 0 ≤ n)
    (h : n ≤ (R : Int)) : f32Round n ≤ (R : Int) := by
  unfold f32Round
  rw [if_pos h0, Int.ofNat_eq_coe]
  have h1 : n.toNat ≤ R := by
    have := Int.toNat_of_nonneg h0
    omega
  exact Int.ofNat_le.mpr (roundNat24_le _ R hR h1)

theorem f32Round_neg (n : Int) (R : Nat) (hR : F32Representable R) (h0 : n < 0)
    (h : -(R : Int) ≤ n) : -(R : Int) ≤ f32Round n ∧ f32Round n ≤ 0 := by
  unfold f32Round
  rw [if_neg (by omega), Int.ofNat_eq_coe]
  have h1 : (-n).toNat ≤ R := by
    have := Int.toNat_of_nonneg (by omega : 0 ≤ -n)
    omega
  have h2 : ((roundNat24 (-n).toNat : Nat) : Int) ≤ (R : Int) :=
    Int.ofNat_le.mpr (roundNat24_le _ R hR h1)
  have h3 : (0 : Int) ≤ ((roundNat24 (-n).toNat : Nat) : Int) := Int.ofNat_nonneg _
  constructor <;> omega

/-! ## The height scale in binary32 -/

theorem f32Step_representable : F32Representable (8589935 * 2 ^ 115) :=
  ⟨8589935, 115, by norm_num, rfl⟩

theorem heightScaleUpper_representable : F32Representable (8392803 * 2 ^ 126) :=
  ⟨8392803, 126, by norm_num, rfl⟩

/-- The literals as binary32 numbers: `0.0005f` is within half a unit in the
last place (`2^-35`) of `5/10000`, `1.0f` is 1, and the stored initial value is
within half a unit in the last place (`2^-28`) of every number as close to
`1/10` as the `double` literal `0.1` is. -/
theorem f32_literals :
    f32Value f32Step = 8589935 / 2 ^ 34 ∧ |f32Value f32Step - 5 / 10000| < 1 / 2 ^ 35 ∧
    f32Value f32One = 1 ∧
    f32Value heightScaleInitial = 13421773 / 2 ^ 27 ∧
    (∀ x : ℚ, |x - 1 / 10| ≤ 1 / 2 ^ 56 → |f32Value heightScaleInitial - x| < 1 / 2 ^ 28) := by
  have hs : f32Value f32Step = 8589935 / 2 ^ 34 := by
    norm_num [f32Value, f32Step]
  have hi : f32Value heightScaleInitial = 13421773 / 2 ^ 27 := by
    norm_num [f32Value, heightScaleInitial]
  refine ⟨hs, ?_, ?_, hi, ?_⟩
  · rw [hs, abs_lt]
    constructor <;> norm_num
  · norm_num [f32Value, f32One]
  · intro x hx
    rw [hi]
    rw [abs_le] at hx
    rw [abs_lt]
    obtain ⟨h1, h2⟩ := hx
    constructor
    · have : (13421773 : ℚ) / 2 ^ 27 - 1 / 10 > -(1 / 2 ^ 28) + 1 / 2 ^ 56 := by norm_num
      linarith
    · have : (13421773 : ℚ) / 2 ^ 27 - 1 / 10 < 1 / 2 ^ 28 - 1 / 2 ^ 56 := by norm_num
      linarith

/-- One frame keeps `heightScale` between `-0.0005f` and `heightScaleUpper`. -/
theorem processInputHeight_within (keyQ keyE : KeyStatus) (h : Int)
    (hh : -f32Step ≤ h ∧ h ≤ heightScaleUpper) :
    -f32Step ≤ processInputHeight keyQ keyE h ∧
      processInputHeight keyQ keyE h ≤ heightScaleUpper := by
  obtain ⟨hlo, hhi⟩ := hh
  have eS : f32Step = ((8589935 * 2 ^ 115 : Nat) : Int) := rfl
  have eB : heightScaleUpper = ((8392803 * 2 ^ 126 : Nat) : Int) := rfl
  have hS0 : 0 ≤ f32Step := by rw [eS]; exact Int.ofNat_nonneg _
  have hB0 : 0 ≤ heightScaleUpper := by rw [eB]; exact Int.ofNat_nonneg _
  have h1B : f32One + f32Step ≤ heightScaleUpper := by
    simp only [f32One, f32Step, heightScaleUpper, Int.ofNat_eq_coe]
    norm_num
  have hone : 0 ≤ f32One := Int.ofNat_nonneg _
  unfold processInputHeight
  by_cases hq : keyQ = KeyStatus.PRESS
  · rw [if_pos hq]
    by_cases hpos : h > 0
    · rw [if_pos hpos]
      by_cases hn : 0 ≤ h - f32Step
      · have := f32Round_nonneg _ hn
        have hle := f32Round_le (h - f32Step) _ heightScaleUpper_representable hn
          (by rw [← eB]; omega)
        rw [← eB] at hle
        exact ⟨by omega, hle⟩
      · have := f32Round_neg (h - f32Step) _ f32Step_representable (by omega)
          (by rw [← eS]; omega)
        rw [← eS] at this
        exact ⟨this.1, by omega⟩
    · rw [if_neg hpos]
      exact ⟨by omega, hB0⟩
  · rw [if_neg hq]
    by_cases he : keyE = KeyStatus.PRESS
    · rw [if_pos he]
      by_cases hlt : h < f32One
      · rw [if_pos hlt]
        have hn : 0 ≤ h + f32Step := by omega
        have := f32Round_nonneg _ hn
        have hle := f32Round_le (h + f32Step) _ heightScaleUpper_representable hn
          (by rw [← eB]; omega)
        rw [← eB] at hle
        exact ⟨by omega, hle⟩
      · rw [if_neg hlt]
        exact ⟨by omega, by omega⟩
    · rw [if_neg he]
      exact ⟨hlo, hhi⟩

theorem runHeight_within (keys : List (KeyStatus × KeyStatus)) :
    -f32Step ≤ runHeight keys heightScaleInitial ∧
      runHeight keys heightScaleInitial ≤ heightScaleUpper := by
  unfold runHeight
  refine foldl_invariant (fun h : Int => -f32Step ≤ h ∧ h ≤ heightScaleUpper) _ keys ?_
    heightScaleInitial ?_
  · intro h frame _ hh
    exact processInputHeight_within frame.1 frame.2 h hh
  · simp only [f32Step, heightScaleUpper, heightScaleInitial, Int.ofNat_eq_coe]
    constructor <;> norm_num

theorem runHeight_replicate_add (frame : KeyStatus × KeyStatus) (a b : Nat) (h : Int) :
    runHeight (List.replicate (a + b) frame) h
      = runHeight (List.replicate b frame) (runHeight (List.replicate a frame) h) := by
  unfold runHeight
  rw [List.replicate_add, List.foldl_append]

/-- Two hundred frames with Q pressed, from the initial value. -/
theorem runHeight_q200 :
    runHeight (List.replicate 200 (KeyStatus.PRESS, KeyStatus.RELEASE)) heightScaleInitial
      = -Int.ofNat (975 * 2 ^ 116) := by
  decide!

set_option maxHeartbeats 4000000 in
/-- The value of `heightScale` every two hundred frames while E is pressed. -/
theorem runHeight_e200 :
    runHeight (List.replicate 200 (KeyStatus.RELEASE, KeyStatus.PRESS))
        (Int.ofNat (13421773 * 2 ^ 122)) = Int.ofNat (13421711 * 2 ^ 123) ∧
    runHeight (List.replicate 200 (KeyStatus.RELEASE, KeyStatus.PRESS))
        (Int.ofNat (13421711 * 2 ^ 123)) = Int.ofNat (629141 * 2 ^ 128) ∧
    runHeight (List.replicate 200 (KeyStatus.RELEASE, KeyStatus.PRESS))
        (Int.ofNat (629141 * 2 ^ 128)) = Int.ofNat (1677707 * 2 ^ 127) ∧
    runHeight (List.replicate 200 (KeyStatus.RELEASE, KeyStatus.PRESS))
        (Int.ofNat (1677707 * 2 ^ 127)) = Int.ofNat (524283 * 2 ^ 129) ∧
    runHeight (List.replicate 200 (KeyStatus.RELEASE, KeyStatus.PRESS))
        (Int.ofNat (524283 * 2 ^ 129)) = Int.ofNat (1258291 * 2 ^ 128) ∧
    runHeight (List.replicate 200 (KeyStatus.RELEASE, KeyStatus.PRESS))
        (Int.ofNat (1258291 * 2 ^ 128)) = Int.ofNat (91751 * 2 ^ 132) ∧
    runHeight (List.replicate 200 (KeyStatus.RELEASE, KeyStatus.PRESS))
        (Int.ofNat (91751 * 2 ^ 132)) = Int.ofNat (1677741 * 2 ^ 128) ∧
    runHeight (List.replicate 200 (KeyStatus.RELEASE, KeyStatus.PRESS))
        (Int.ofNat (1677741 * 2 ^ 128)) = Int.ofNat (943733 * 2 ^ 129) ∧
    runHeight (List.replicate 200 (KeyStatus.RELEASE, KeyStatus.PRESS))
        (Int.ofNat (943733 * 2 ^ 129)) = Int.ofNat (2097191 * 2 ^ 128) :=
  ⟨by decide!, by decide!, by decide!, by decide!, by decide!, by decide!, by decide!, by decide!, by decide!⟩

/-- Eighteen hundred frames with E pressed, from the initial value. -/
theorem runHeight_e1800 :
    runHeight (List.replicate 1800 (KeyStatus.RELEASE, KeyStatus.PRESS)) heightScaleInitial
      = Int.ofNat (2097191 * 2 ^ 128) := by
  obtain ⟨c1, c2, c3, c4, c5, c6, c7, c8, c9⟩ := runHeight_e200
  have e : (1800 : Nat) = 200 + 200 + 200 + 200 + 200 + 200 + 200 + 200 + 200 := rfl
  rw [e]
  simp only [runHeight_replicate_add]
  rw [show heightScaleInitial = Int.ofNat (13421773 * 2 ^ 122) from rfl,
    c1, c2, c3, c4, c5, c6, c7, c8, c9]

theorem f32Value_mono (a b : Int) (h : a ≤ b) : f32Value a ≤ f32Value b := by
  unfold f32Value
  have hc : (a : ℚ) ≤ (b : ℚ) := by exact_mod_cast h
  exact div_le_div_of_nonneg_right hc (by positivity)

/-! ## Claim C19 -/

/-- C19, as stated, fails on the `float` that `heightScale` is. The initial
value, `13421773 / 2^27`, is not a multiple of `0.0005`. After 200 frames with
Q pressed the value is `-975 / 8589934592`, below 0. After 1800 frames with E
pressed the value is `2097191 / 2097152`, above 1. -/
theorem heightScale_leaves_unit_interval :
    (¬ ∃ k : ℤ, f32Value heightScaleInitial = (k : ℚ) * (5 / 10000)) ∧
    f32Value (runHeight (List.replicate 200 (KeyStatus.PRESS, KeyStatus.RELEASE))
      heightScaleInitial) = -975 / 8589934592 ∧
    f32Value (runHeight (List.replicate 200 (KeyStatus.PRESS, KeyStatus.RELEASE))
      heightScaleInitial) < 0 ∧
    f32Value (runHeight (List.replicate 1800 (KeyStatus.RELEASE, KeyStatus.PRESS))
      heightScaleInitial) = 2097191 / 2097152 ∧
    1 < f32Value (runHeight (List.replicate 1800 (KeyStatus.RELEASE, KeyStatus.PRESS))
      heightScaleInitial) := by
  have hq : f32Value (runHeight (List.replicate 200 (KeyStatus.PRESS, KeyStatus.RELEASE))
      heightScaleInitial) = -975 / 8589934592 := by
    rw [runHeight_q200]
    norm_num [f32Value]
  have he : f32Value (runHeight (List.replicate 1800 (KeyStatus.RELEASE, KeyStatus.PRESS))
      heightScaleInitial) = 2097191 / 2097152 := by
    rw [runHeight_e1800]
    norm_num [f32Value]
  refine ⟨?_, hq, ?_, he, ?_⟩
  · rintro ⟨k, hk⟩
    rw [f32_literals.2.2.2.1] at hk
    have h2 : (13421773 * 2000 : ℚ) = (k : ℚ) * 134217728 := by
      have e27 : (2 : ℚ) ^ 27 = 134217728 := by norm_num
      rw [e27] at hk
      linarith
    have h3 : (13421773 * 2000 : ℤ) = k * 134217728 := by exact_mod_cast h2
    omega
  · rw [hq]
    norm_num
  · rw [he]
    norm_num

/-- C19, amended. `heightScale` is a binary32 `float` stepped by `0.0005f`
with rounding to nearest. Starting from the initial value `0.1f`, after every
finite sequence of frames (each with its status of Q and of E) it satisfies
`-0.0005f ≤ heightScale ≤ 1 + 4195 * 2^-23`, so it leaves `[0, 1]` by less
than `0.000501`. A frame with Q pressed at `heightScale ≤ 0` sets it to exactly
0, a frame with E pressed without Q at `heightScale ≥ 1` sets it to exactly 1,
and a frame with neither key leaves it unchanged. -/
theorem heightScale_within_one_step (keys : List (KeyStatus × KeyStatus)) :
    (-(8589935 / 2 ^ 34) ≤ f32Value (runHeight keys heightScaleInitial) ∧
      f32Value (runHeight keys heightScaleInitial) ≤ 1 + 4195 / 2 ^ 23) ∧
    (-(501 / 1000000) < f32Value (runHeight keys heightScaleInitial) ∧
      f32Value (runHeight keys heightScaleInitial) < 1 + 501 / 1000000) ∧
    (∀ (keyE : KeyStatus) (h : Int), h ≤ 0 →
      processInputHeight KeyStatus.PRESS keyE h = 0) ∧
    (∀ h : Int, f32One ≤ h →
      processInputHeight KeyStatus.RELEASE KeyStatus.PRESS h = f32One) ∧
    (∀ h : Int, processInputHeight KeyStatus.RELEASE KeyStatus.RELEASE h = h) := by
  obtain ⟨hlo, hhi⟩ := runHeight_within keys
  have h1 := f32Value_mono _ _ hlo
  have h2 := f32Value_mono _ _ hhi
  have e1 : f32Value (-f32Step) = -(8589935 / 2 ^ 34) := by
    norm_num [f32Value, f32Step]
  have e2 : f32Value heightScaleUpper = 1 + 4195 / 2 ^ 23 := by
    norm_num [f32Value, heightScaleUpper]
  rw [e1] at h1
  rw [e2] at h2
  refine ⟨⟨h1, h2⟩, ⟨?_, ?_⟩, ?_, ?_, ?_⟩
  · have : (-(501 / 1000000) : ℚ) < -(8589935 / 2 ^ 34) := by norm_num
    linarith
  · have : (1 + 4195 / 2 ^ 23 : ℚ) < 1 + 501 / 1000000 := by norm_num
    linarith
  · intro keyE h hle
    unfold processInputHeight
    rw [if_pos rfl, if_neg (by omega)]
  · intro h hge
    unfold processInputHeight
    rw [if_neg (by decide), if_pos rfl, if_neg (by omega)]
  · intro h
    unfold processInputHeight
    rw [if_neg (by decide), if_neg (by decide)]

end Polygonal
